import Mathlib

/-!
Verification development for the OpenFlow Node.js SDK flow-execution core.

The definitions below are shallow embeddings of the TypeScript sources:
  * `src/core/validation/FlowValidator.ts` (reference extraction, dependency
    graph, topological sort),
  * `src/core/executor/ExecutionRegistry.ts` (variables, node outputs,
    expression resolution, variable-type validation),
  * `src/core/utils/FileManager.ts` (file registry),
  * `src/core/nodes/base/BaseNode.ts` (template / single-reference
    resolution, `executeWithContext`),
  * the Update-Variable executor in its extended form (operations
    `update`, `join`, `append`, `filter`; the remaining operations
    `extract`/`pick`/`omit`/`map`/`slice`/`flatten`/`concat` are not
    needed by any theorem and are not embedded),
  * `src/core/nodes/condition/ConditionNode.ts`,
  * `src/core/nodes/foreach/ForEachNode.ts` (scoped registry overlay and
    the iteration loop).

JavaScript dynamic values are modelled by the inductive type `Value`.
JS numbers are modelled as `Option Int` (`none` is `NaN`); floats,
`Infinity`, exponent/fraction literals and float printing are not modelled —
every numeric value the claims exercise is an integer and no embedded code
path performs arithmetic on numbers.  `===` on non-primitive
operands compares object references in JS; the two operands reaching the
embedded comparisons originate from separate parses/constructions, so the
embedding returns `false` for non-primitive operands.  Wall-clock fields
(`executionTime`, `delay_between` sleeping) and logging are not modelled.
-/

namespace OpenFlow

/-! ## JavaScript reference scanner

Embeds the regex `/\{\{([^}]+)\}\}/g` scanning used both by
`FlowValidator.extractNodeReferences` / `extractVariableReferences` and by
`BaseNode.resolveVariables`: at each position, a match needs `{{`, then a
nonempty run of characters other than `}`, then `}}`; on a failed attempt
the scan resumes one character further, and on a match it resumes after the
closing braces. -/
/-- One `\x7b\x7b…\x7d\x7d` occurrence: the full matched token and the inner
expression (group 1 of the regex). -/
structure RefTok where
  raw : String
  expr : String
  deriving DecidableEq, Repr

/-- Does `cs` start with `\x7d\x7d`? -/
def startsWithClose (cs : List Char) : Bool :=
  decide (cs.take 2 = ['}', '}'])

/-- Fuelled scanner body; every step consumes at least one character, so
fuel equal to the input length is always sufficient (`scanAux_congr`).
At a position starting `\x7b\x7b` followed by a nonempty run of
non-`\x7d` characters and then `\x7d\x7d`, the regex matches and the scan
resumes after the token; otherwise the scan advances one character (which
for a failed `\x7b\x7b` attempt is exactly the regex engine retrying at
the next position). -/
def scanAux : Nat → List Char → List RefTok
  | 0, _ => []
  | _ + 1, [] => []
  | fuel + 1, c :: cs =>
    let rest := cs.tail
    let content := rest.takeWhile (· ≠ '}')
    if c = '{' ∧ cs.head? = some '{' ∧ content ≠ [] ∧
        startsWithClose (rest.drop content.length) then
      ⟨⟨'{' :: '{' :: content ++ ['}', '}']⟩, ⟨content⟩⟩
        :: scanAux fuel (rest.drop (content.length + 2))
    else
      scanAux fuel cs

/-- All regex matches of `/\{\{([^}]+)\}\}/g` in the character list. -/
def scanRefs (cs : List Char) : List RefTok :=
  scanAux cs.length cs

/-! ## FlowValidator: node-reference extraction and the dependency graph

From `src/core/validation/FlowValidator.ts`.  Only the payload fields that
`extractNodeReferences` actually scans are needed for the node model:
`value` for `UPDATE_VARIABLE` and the message fields for `LLM`.  The other
node kinds carry their payload strings in `otherPayload`; the validator
never scans them when building dependencies (the `switch` in
`extractNodeReferences` has no case for them). -/
/-- The closed node-kind enum of the flow schema. -/
inductive NodeKind where
  | llm | documentSplitter | textEmbedding
  | vectorInsert | vectorSearch | vectorUpdate | vectorDelete
  | forEach | updateVariable | condition
  deriving DecidableEq, Repr

/-- An LLM message: each field is scanned for references when present and
truthy (a missing field or empty string is skipped by the `if`). -/
structure VMessage where
  text : Option String := none
  image_url : Option String := none
  image_path : Option String := none
  deriving DecidableEq, Repr

/-- A flow node as seen by the validator.  `value` is the
`UPDATE_VARIABLE` payload, `messages` the `LLM` payload; `otherPayload`
collects the payload strings of every other field (e.g. a `CONDITION`
node's `switch_value`, a `FOR_EACH` node's `items`), which
`extractNodeReferences` ignores. -/
structure VNode where
  id : String
  type : NodeKind
  value : Option String := none
  messages : List VMessage := []
  otherPayload : List String := []
  deriving DecidableEq, Repr

/-- A scanned reference: head identifier, joined dotted tail (empty when the
token has no tail) and the full token. -/
structure VariableReference where
  nodeId : String
  path : String
  fullReference : String
  deriving DecidableEq, Repr

/-- JS `String.prototype.trim`: strip whitespace from both ends. -/
def jsTrim (s : String) : String :=
  ⟨((s.data.dropWhile Char.isWhitespace).reverse.dropWhile Char.isWhitespace).reverse⟩

/-- JS `str.split(sep)` for a one-character separator: `""` splits to
`[""]`, separators at the ends produce empty fields. -/
def splitChar (sep : Char) : List Char → List (List Char)
  | [] => [[]]
  | c :: cs =>
    if c = sep then [] :: splitChar sep cs
    else
      match splitChar sep cs with
      | g :: gs => (c :: g) :: gs
      | [] => [[c]]

/-- The `expression.split(".")` used throughout the sources. -/
def splitDot (s : String) : List String :=
  (splitChar '.' s.data).map (fun cs => ⟨cs⟩)

/-- Does the first character list start with the second? -/
def leadsWith : List Char → List Char → Bool
  | _, [] => true
  | [], _ :: _ => false
  | c :: cs, p :: ps => c = p && leadsWith cs ps

/-- JS `String.prototype.startsWith`. -/
def jsStartsWith (s pre : String) : Bool :=
  leadsWith s.data pre.data

/-- `extractFromText` inside `FlowValidator.extractNodeReferences`: scan a
string, trim each inner expression and split it on `.`. -/
def extractFromText (text : String) : List VariableReference :=
  (scanRefs text.data).map (fun t =>
    let parts := splitDot (jsTrim t.expr)
    { nodeId := parts.headD ""
      path := String.intercalate "." (parts.drop 1)
      fullReference := t.raw })

/-- JS truthiness of an optional string field (`if (node.value)`,
`if (message.text)`): present and nonempty. -/
def truthyStr : Option String → Bool
  | some s => s ≠ ""
  | none => false

/-- `FlowValidator.extractNodeReferences` (lines 724-762): references are
extracted only from an `UPDATE_VARIABLE` node's `value` and from an `LLM`
node's message `text` / `image_url` / `image_path` fields; every other node
kind yields no references. -/
def extractNodeReferences (node : VNode) : List VariableReference :=
  match node.type with
  | NodeKind.updateVariable =>
    match node.value with
    | some v => if v ≠ "" then extractFromText v else []
    | none => []
  | NodeKind.llm =>
    node.messages.flatMap (fun m =>
      (if truthyStr m.text then extractFromText (m.text.getD "") else []) ++
      (if truthyStr m.image_url then extractFromText (m.image_url.getD "") else []) ++
      (if truthyStr m.image_path then extractFromText (m.image_path.getD "") else []))
  | _ => []

/-- JS `Set` insertion: add at the end unless already present. -/
def insertUnique (l : List String) (x : String) : List String :=
  if x ∈ l then l else l ++ [x]

/-- The dependency set of one node: heads of its extracted references whose
path is truthy (nonempty) and starts with `output`, deduplicated in
insertion order (a JS `Set`). -/
def nodeDeps (node : VNode) : List String :=
  (extractNodeReferences node).foldl
    (fun acc r =>
      if r.path ≠ "" ∧ jsStartsWith r.path "output" then insertUnique acc r.nodeId
      else acc) []

/-- The dependency graph: node id ↦ set of node ids it depends on, in node
declaration order (`FlowValidator.buildDependencyGraph`, lines 671-719;
the graph `Map` holds one entry per id). -/
def buildDependencyGraph (nodes : List VNode) : List (String × List String) :=
  nodes.map (fun n => (n.id, nodeDeps n))

/-- Dependencies recorded for `b` in graph `g` (empty if `b` is absent). -/
def depsOf (g : List (String × List String)) (b : String) : List String :=
  match g.find? (fun p => p.1 = b) with
  | some p => p.2
  | none => []

/-- The vertex list of the graph, in insertion order. -/
def graphKeys (g : List (String × List String)) : List String :=
  g.map Prod.fst

/-- Initial in-degree of `b`: how many of its dependencies are vertices of
the graph (`topologicalSort`, in-degree calculation). -/
def initInDegree (g : List (String × List String)) (b : String) : Int :=
  ((depsOf g b).filter (fun a => (graphKeys g).contains a)).length

/-- One pass of the `while` body of `FlowValidator.topologicalSort` after
dequeuing `q`: every vertex whose dependency set contains `q` has its
in-degree decremented, and those that reach exactly `0` are enqueued in
graph order.  (Each vertex occurs once in the graph `Map`, so the
in-place `Map` updates are this functional update.) -/
def kahnStep (g : List (String × List String)) (deg : String → Int) (q : String) :
    (String → Int) × List String :=
  (fun b => if (depsOf g b).contains q then deg b - 1 else deg b,
   (graphKeys g).filter (fun b => (depsOf g b).contains q && (deg b - 1 == 0)))

/-- The dequeue loop of `FlowValidator.topologicalSort`.  The fuel only
bounds the number of dequeues; `graphKeys g |>.length` dequeues always
suffice because no vertex is ever enqueued twice. -/
def kahnLoop (g : List (String × List String)) :
    Nat → (String → Int) → List String → List String → List String
  | 0, _, _, result => result
  | _ + 1, _, [], result => result
  | fuel + 1, deg, q :: qs, result =>
    let step := kahnStep g deg q
    kahnLoop g fuel step.1 (qs ++ step.2) (result ++ [q])

/-- `FlowValidator.topologicalSort` (lines 767-816): Kahn's algorithm;
`none` models the thrown `Circular dependency detected` error (raised
exactly when the processed count differs from the vertex count). -/
def topologicalSort (g : List (String × List String)) : Option (List String) :=
  let deg0 := initInDegree g
  let queue0 := (graphKeys g).filter (fun b => deg0 b == 0)
  let result := kahnLoop g g.length deg0 queue0 []
  if result.length = g.length then some result else none

/-! ## Correctness of the topological sort (claim C1)

Well-formedness below is what the JS runtime guarantees for the graph
produced by `buildDependencyGraph`: a `Map` has distinct keys, a `Set` has
distinct elements. -/
/-- Graph well-formedness: distinct vertices, duplicate-free dependency
sets. -/
def WFGraph (g : List (String × List String)) : Prop :=
  (graphKeys g).Nodup ∧ ∀ p ∈ g, (p.2 : List String).Nodup

/-- Number of in-graph dependencies of `b` not yet placed in `res`. -/
def unproc (g : List (String × List String)) (res : List String) (b : String) : Nat :=
  ((depsOf g b).filter (fun a => decide (a ∈ graphKeys g) && !(decide (a ∈ res)))).length

/-- Loop invariant of `topologicalSort`: no vertex is duplicated between
the output and the queue, both live in the graph, every queued or emitted
vertex has all its in-graph dependencies already emitted (emitted ones
strictly earlier), and every untouched vertex's tracked in-degree equals
its positive count of unemitted in-graph dependencies. -/
def KahnInv (g : List (String × List String)) (deg : String → Int)
    (queue res : List String) : Prop :=
  (res ++ queue).Nodup ∧
  (∀ x ∈ res ++ queue, x ∈ graphKeys g) ∧
  (∀ b ∈ queue, ∀ a ∈ depsOf g b, a ∈ graphKeys g → a ∈ res) ∧
  (∀ l₁ b l₂, res = l₁ ++ b :: l₂ → ∀ a ∈ depsOf g b, a ∈ graphKeys g → a ∈ l₁) ∧
  (∀ b ∈ graphKeys g, b ∉ res → b ∉ queue →
    deg b = unproc g res b ∧ 0 < unproc g res b)

/-- What survives to the loop's output. -/
def KahnPost (g : List (String × List String)) (r : List String) : Prop :=
  r.Nodup ∧ (∀ x ∈ r, x ∈ graphKeys g) ∧
  ∀ l₁ b l₂, r = l₁ ++ b :: l₂ → ∀ a ∈ depsOf g b, a ∈ graphKeys g → a ∈ l₁

/-! ## JavaScript values

`Value` models the dynamic values flowing through the registry and node
payloads.  `num none` is `NaN`.  Arrays and keyed objects are finite lists;
`undef` is JavaScript `undefined` (a map entry may be present with value
`undef`, which models `Map.set(k, undefined)` — `has` is then still true). -/
inductive Value where
  | undef
  | null
  | bool (b : Bool)
  | num (n : Option Int)
  | str (s : String)
  | arr (elems : List Value)
  | obj (fields : List (String × Value))
  deriving Repr, Inhabited

/-- JS `typeof` (note `typeof null === "object"`). -/
def jsTypeof : Value → String
  | .undef => "undefined"
  | .null => "object"
  | .bool _ => "boolean"
  | .num _ => "number"
  | .str _ => "string"
  | .arr _ => "object"
  | .obj _ => "object"

/-- JS truthiness: `undefined`, `null`, `false`, `0`, `NaN` and `""` are
falsy; every object and array is truthy. -/
def jsTruthy : Value → Bool
  | .undef => false
  | .null => false
  | .bool b => b
  | .num none => false
  | .num (some n) => n ≠ 0
  | .str s => s ≠ ""
  | .arr _ => true
  | .obj _ => true

/-- JS `String(v)`.  Arrays join their elements with `,`, rendering `null`
and `undefined` elements as empty. -/
def jsString : Value → String
  | .undef => "undefined"
  | .null => "null"
  | .bool true => "true"
  | .bool false => "false"
  | .num none => "NaN"
  | .num (some n) => toString n
  | .str s => s
  | .arr l => String.intercalate "," (arrElems l)
  | .obj _ => "[object Object]"
where arrElems : List Value → List String
  | [] => []
  | .undef :: rest => "" :: arrElems rest
  | .null :: rest => "" :: arrElems rest
  | v :: rest => jsString v :: arrElems rest

/-- Minimal JSON string escaping (backslash and double quote; the control
characters never occur in the strings of this development). -/
def jsonEscape (s : String) : String :=
  ⟨s.data.flatMap (fun c => if c = '\\' ∨ c = '"' then ['\\', c] else [c])⟩

/-- JS `JSON.stringify(v)` for defined values: `undefined` object fields
are omitted, `undefined` array elements and `NaN` become `null`. -/
def jsonStringify : Value → String
  | .undef => "null"
  | .null => "null"
  | .bool true => "true"
  | .bool false => "false"
  | .num none => "null"
  | .num (some n) => toString n
  | .str s => "\"" ++ jsonEscape s ++ "\""
  | .arr l => "[" ++ String.intercalate "," (elems l) ++ "]"
  | .obj f => "\x7b" ++ String.intercalate "," (fields f) ++ "\x7d"
where
  elems : List Value → List String
    | [] => []
    | v :: rest => jsonStringify v :: elems rest
  fields : List (String × Value) → List String
    | [] => []
    | (_, .undef) :: rest => fields rest
    | (k, v) :: rest => ("\"" ++ jsonEscape k ++ "\":" ++ jsonStringify v) :: fields rest

/-- JS strict equality `===` restricted to the operands that occur here:
primitives compare by value (`NaN !== NaN`); array/object operands compare
by reference, and the two operands reaching every embedded comparison are
separately constructed objects, hence unequal. -/
def jsStrictEq : Value → Value → Bool
  | .undef, .undef => true
  | .null, .null => true
  | .bool a, .bool b => a == b
  | .num (some a), .num (some b) => a == b
  | .str a, .str b => a == b
  | _, _ => false

/-- SameValueZero, the comparison of `Array.prototype.includes`: like `===`
but `NaN` matches `NaN`. -/
def sameValueZero : Value → Value → Bool
  | .num none, .num none => true
  | a, b => jsStrictEq a b

/-- Substring test (`String.prototype.includes`). -/
def hasSubstring : List Char → List Char → Bool
  | [], sub => sub.isEmpty
  | c :: cs, sub => leadsWith (c :: cs) sub || hasSubstring cs sub

/-- Decimal digits to a number. -/
def digitsToNat (l : List Char) : Nat :=
  l.foldl (fun n c => n * 10 + (c.toNat - 48)) 0

/-- A canonical array index: nonempty digit run with no leading zero
(except `"0"` itself); only such strings index a JS array. -/
def parseCanonicalNat (s : String) : Option Nat :=
  match s.data with
  | [] => none
  | c :: cs =>
    if (c :: cs).all Char.isDigit ∧ (c ≠ '0' ∨ cs = []) then
      some (digitsToNat (c :: cs))
    else none

/-- JS `Number(string)`: trimmed empty string is `0`, an optional sign
followed by digits parses as an integer, anything else is `NaN` in this
model (floats and exponents are not modelled and never instantiated). -/
def jsParseNum (s : String) : Option Int :=
  match (jsTrim s).data with
  | [] => some 0
  | '-' :: rest => if rest ≠ [] ∧ rest.all Char.isDigit then some (-(digitsToNat rest : Int)) else none
  | '+' :: rest => if rest ≠ [] ∧ rest.all Char.isDigit then some (digitsToNat rest) else none
  | c :: cs => if (c :: cs).all Char.isDigit then some (digitsToNat (c :: cs)) else none

/-- JS `Number(v)` coercion (`ConditionNodeExecutor.evaluateCondition`
applies it to both comparison operands). -/
def jsToNumber : Value → Option Int
  | .undef => none
  | .null => some 0
  | .bool b => some (if b then 1 else 0)
  | .num n => n
  | .str s => jsParseNum s
  | .arr l => jsParseNum (jsString (.arr l))
  | .obj _ => none

/-- `>` on JS numbers: any `NaN` operand yields `false`. -/
def numGt : Option Int → Option Int → Bool
  | some a, some b => a > b
  | _, _ => false

/-- `<` on JS numbers: any `NaN` operand yields `false`. -/
def numLt : Option Int → Option Int → Bool
  | some a, some b => a < b
  | _, _ => false

/-- Is `v` of `typeof "object"` and truthy, i.e. an array or keyed object
(the `current && typeof current === "object"` navigation guard)? -/
def isObjLike : Value → Bool
  | .arr _ => true
  | .obj _ => true
  | _ => false

/-- JS property read `v[key]` for arrays and objects: object fields by
name, arrays by canonical index (plus `length`); a missing property is
`undefined`. -/
def getField : Value → String → Value
  | .obj fields, key =>
    match fields.find? (fun p => p.1 = key) with
    | some p => p.2
    | none => .undef
  | .arr l, key =>
    if key = "length" then .num (some l.length)
    else
      match parseCanonicalNat key with
      | some i => (l.get? i).getD .undef
      | none => .undef
  | _, _ => (.undef)

/-- Does `v` have property `key` (`key in v`)? -/
def hasKey : Value → String → Bool
  | .obj fields, key => (fields.find? (fun p => p.1 = key)).isSome
  | .arr l, key =>
    key = "length" ||
      match parseCanonicalNat key with
      | some i => i < l.length
      | none => false
  | _, _ => false

/-- The navigation loop shared by `ExecutionRegistry.resolveExpression`
and the scoped resolver: descend one path segment at a time; a step on a
non-object value yields `undefined`. -/
def navigate : Value → List String → Value
  | v, [] => v
  | v, p :: ps => if isObjLike v then navigate (getField v p) ps else (.undef)

/-! ## Association-list maps

JS `Map` semantics: `set` overwrites in place or appends, `get` of a
missing key is `undefined`, `has` distinguishes a missing key from a key
set to `undefined`. -/
/-- `Map.set`. -/
def aset {α : Type} : List (String × α) → String → α → List (String × α)
  | [], k, v => [(k, v)]
  | (k', v') :: rest, k, v =>
    if k' = k then (k, v) :: rest else (k', v') :: aset rest k v

/-- `Map.get` (`none` = key absent). -/
def aget? {α : Type} (l : List (String × α)) (k : String) : Option α :=
  (l.find? (fun p => p.1 = k)).map Prod.snd

/-! ## FileManager (`src/core/utils/FileManager.ts`)

The filesystem and `uuidv4` are runtime externals: `fsPaths` models the
set of paths for which `fs.existsSync` holds and `statSync.isFile`
succeeds, and fresh ids come from a counter.  Only the fields the
embedded code reads are kept. -/
structure FileManagerState where
  /-- registered files: id ↦ original path. -/
  files : List (String × String) := []
  /-- model of the filesystem: the paths that exist as regular files. -/
  fsPaths : List String := []
  /-- model of `uuidv4`: a fresh-id counter. -/
  nextId : Nat := 0
  deriving Repr

/-- `FileManager.hasFile`. -/
def FileManagerState.hasFile (fm : FileManagerState) (id : String) : Bool :=
  (aget? fm.files id).isSome

/-- `FileManager.registerFile`: missing path throws `File not found`;
otherwise a fresh id is recorded and returned. -/
def FileManagerState.registerFile (fm : FileManagerState) (path : String) :
    Except String (String × FileManagerState) :=
  if path ∈ fm.fsPaths then
    let id := "file-" ++ toString fm.nextId
    .ok (id, { fm with files := aset fm.files id path, nextId := fm.nextId + 1 })
  else
    .error ("File not found: " ++ path)

/-- `FileManager.validateFileVariable` (lines 185-197): a non-string value
or an unknown file id throws; no registration is attempted. -/
def FileManagerState.validateFileVariable (fm : FileManagerState) (value : Value)
    (variableId : String) : Except String Unit :=
  match value with
  | .str s =>
    if fm.hasFile s then .ok ()
    else .error ("File ID '" ++ s ++ "' not found in registry for variable '" ++
      variableId ++ "'")
  | v =>
    .error ("Variable '" ++ variableId ++ "' should be a file ID string, but got " ++
      jsTypeof v)

/-! ## ExecutionRegistry (`src/core/executor/ExecutionRegistry.ts`) -/
/-- The declared-variable type tags. -/
inductive VarType where
  | string | number | boolean | file | array | object
  deriving DecidableEq, Repr

/-- Per-flow state: `data.variables`, `data.nodeOutputs`, the declared
`variableTypes` (presence in the map = declared; `none` = declared without
a type tag) and the `FileManager` collaborator. -/
structure Registry where
  vars : List (String × Value) := []
  outs : List (String × Value) := []
  variableTypes : List (String × Option VarType) := []
  fm : FileManagerState := {}
  deriving Repr

/-- `ExecutionRegistry.validateVariableType` (lines 259-309). -/
def Registry.validateVariableType (reg : Registry) (variableId : String)
    (value : Value) : Except String Unit :=
  match aget? reg.variableTypes variableId with
  | none => .ok ()
  | some none => .ok ()
  | some (some t) =>
    match t with
    | .string =>
      match value with
      | .str _ => .ok ()
      | v => .error ("Variable '" ++ variableId ++ "' should be a string, but got " ++
          jsTypeof v)
    | .number =>
      match value with
      | .num _ => .ok ()
      | v => .error ("Variable '" ++ variableId ++ "' should be a number, but got " ++
          jsTypeof v)
    | .boolean =>
      match value with
      | .bool _ => .ok ()
      | v => .error ("Variable '" ++ variableId ++ "' should be a boolean, but got " ++
          jsTypeof v)
    | .file => reg.fm.validateFileVariable value variableId
    | .array =>
      match value with
      | .arr _ => .ok ()
      | v => .error ("Variable '" ++ variableId ++ "' should be an array, but got " ++
          jsTypeof v)
    | .object =>
      match value with
      | .obj _ => .ok ()
      | v => .error ("Variable '" ++ variableId ++ "' should be an object, but got " ++
          jsTypeof v)

/-- `ExecutionRegistry.setVariable` (lines 103-107): type-validate, then
write.  No file registration happens here. -/
def Registry.setVariable (reg : Registry) (variableId : String) (value : Value) :
    Except String Registry :=
  match reg.validateVariableType variableId value with
  | .error e => .error e
  | .ok _ => .ok { reg with vars := aset reg.vars variableId value }

/-- `ExecutionRegistry.getVariable` (missing ↦ `undefined`). -/
def Registry.getVariable (reg : Registry) (variableId : String) : Value :=
  ((aget? reg.vars variableId).getD .undef)

/-- `ExecutionRegistry.hasVariable`. -/
def Registry.hasVariable (reg : Registry) (variableId : String) : Bool :=
  (aget? reg.vars variableId).isSome

/-- `ExecutionRegistry.setNodeOutput`. -/
def Registry.setNodeOutput (reg : Registry) (nodeId : String) (output : Value) :
    Registry :=
  { reg with outs := aset reg.outs nodeId output }

/-- `ExecutionRegistry.getNodeOutput` (missing ↦ `undefined`). -/
def Registry.getNodeOutput (reg : Registry) (nodeId : String) : Value :=
  ((aget? reg.outs nodeId).getD .undef)

/-- `ExecutionRegistry.hasNodeOutput`. -/
def Registry.hasNodeOutput (reg : Registry) (nodeId : String) : Bool :=
  (aget? reg.outs nodeId).isSome

/-- `ExecutionRegistry.resolveExpression` (lines 161-194): a single-part
expression prefers a recorded node output over a variable; a dotted
expression is node-output navigation, with a falsy (in particular missing)
recorded output resolving to `undefined`. -/
def Registry.resolveExpression (reg : Registry) (expression : String) : Value :=
  match splitDot expression with
  | [p] => if reg.hasNodeOutput p then reg.getNodeOutput p else reg.getVariable p
  | p :: ps =>
    let nodeOutput := reg.getNodeOutput p
    if jsTruthy nodeOutput then navigate nodeOutput ps else .undef
  | [] => (.undef)

/-- `ExecutionRegistry.setInputVariables` (lines 72-98): for a declared
`file` variable receiving a string that is not a known file id, the string
is registered as a filesystem path and the returned handle id is stored
instead; a registration failure throws `Failed to register file …`.  Every
value is then type-validated and stored. -/
def Registry.setInputVariables (reg : Registry)
    (inputVariables : List (String × Value)) : Except String Registry :=
  match inputVariables with
  | [] => .ok reg
  | (variableId, value) :: rest =>
    let step : Except String (Value × Registry) :=
      match aget? reg.variableTypes variableId, value with
      | some (some VarType.file), .str s =>
        if reg.fm.hasFile s then .ok (value, reg)
        else
          match reg.fm.registerFile s with
          | .ok (id, fm') => .ok (Value.str id, { reg with fm := fm' })
          | .error e =>
            .error ("Failed to register file for variable '" ++ variableId ++ "': " ++ e)
      | _, _ => .ok (value, reg)
    match step with
    | .error e => .error e
    | .ok (processedValue, reg₁) =>
      match reg₁.validateVariableType variableId processedValue with
      | .error e => .error e
      | .ok _ =>
        Registry.setInputVariables
          { reg₁ with vars := aset reg₁.vars variableId processedValue } rest

/-! ## Scoped registry overlays
(`ForEachNodeExecutor.createScopedRegistry`, ForEachNode.ts lines 135-253)

A `Scope` is one iteration's overlay: the loop key bound to the current
item and index, plus the iteration-private node-output store.  A `View`
is the registry seen by a node: the base registry under a stack of scopes
(innermost first); nested For-Each nodes push further scopes. -/
structure Scope where
  eachKey : String
  currentItem : Value
  index : Nat
  localOuts : List (String × Value) := []
  deriving Repr

structure View where
  base : Registry
  scopes : List Scope := []
  deriving Repr

/-- Scoped `getNodeOutput` along the scope stack: the innermost
iteration-local store wins, then outer scopes, then the parent registry. -/
def scopesGetNodeOutput (base : Registry) : List Scope → String → Value
  | [], nodeId => base.getNodeOutput nodeId
  | s :: rest, nodeId =>
    match aget? s.localOuts nodeId with
    | some v => v
    | none => scopesGetNodeOutput base rest nodeId

/-- Scoped `getNodeOutput` of a view. -/
def viewGetNodeOutput (v : View) (nodeId : String) : Value :=
  scopesGetNodeOutput v.base v.scopes nodeId

/-- Scoped `setNodeOutput`: writes the iteration-local store of every
enclosing scope and also the parent registry (the overridden function
stores locally, then delegates). -/
def viewSetNodeOutput (v : View) (nodeId : String) (output : Value) : View :=
  ⟨v.base.setNodeOutput nodeId output,
   v.scopes.map (fun s => { s with localOuts := aset s.localOuts nodeId output })⟩

/-- Scoped `getVariable` along the scope stack: the loop key and its
`_index` companion shadow everything; other ids delegate outward. -/
def scopesGetVariable (base : Registry) : List Scope → String → Value
  | [], variableId => base.getVariable variableId
  | s :: rest, variableId =>
    if variableId = s.eachKey then s.currentItem
    else if variableId = s.eachKey ++ "_index" then .num (some s.index)
    else scopesGetVariable base rest variableId

/-- Scoped `getVariable` of a view. -/
def viewGetVariable (v : View) (variableId : String) : Value :=
  scopesGetVariable v.base v.scopes variableId

/-- Scoped `hasVariable` along the scope stack. -/
def scopesHasVariable (base : Registry) : List Scope → String → Bool
  | [], variableId => base.hasVariable variableId
  | s :: rest, variableId =>
    if variableId = s.eachKey ∨ variableId = s.eachKey ++ "_index" then true
    else scopesHasVariable base rest variableId

/-- Scoped `hasVariable` of a view. -/
def viewHasVariable (v : View) (variableId : String) : Bool :=
  scopesHasVariable v.base v.scopes variableId

/-- Scoped `setVariable`: delegates unchanged to the parent all the way to
the base registry, so variable writes are globally visible. -/
def viewSetVariable (v : View) (variableId : String) (value : Value) :
    Except String View :=
  match v.base.setVariable variableId value with
  | .error e => .error e
  | .ok base' => .ok ⟨base', v.scopes⟩

/-- Scoped `resolveExpression` (ForEachNode.ts lines 150-202): the loop
key resolves to the current item (or a navigation into it), the `_index`
companion to the index (whatever the tail); any other dotted expression is
node-output navigation through the scoped `getNodeOutput` (falsy output ↦
`undefined`); a plain identifier delegates to the parent resolver. -/
def scopesResolveExpression (base : Registry) : List Scope → String → Value
  | [], expression => base.resolveExpression expression
  | s :: rest, expression =>
    let parts := splitDot expression
    if parts.headD "" = s.eachKey then
      match parts with
      | [_] => s.currentItem
      | _ => navigate s.currentItem (parts.drop 1)
    else if parts.headD "" = s.eachKey ++ "_index" then .num (some s.index)
    else if parts.length > 1 then
      let nodeOutput := scopesGetNodeOutput base (s :: rest) (parts.headD "")
      if jsTruthy nodeOutput then navigate nodeOutput (parts.drop 1) else .undef
    else scopesResolveExpression base rest expression

/-- Scoped `resolveExpression` of a view. -/
def viewResolveExpression (v : View) (expression : String) : Value :=
  scopesResolveExpression v.base v.scopes expression

/-! ## BaseNode variable resolution (`src/core/nodes/base/BaseNode.ts`) -/
/-- The template-replacement pass of `BaseNode.resolveVariables`
(lines 69-77): each regex match has its trimmed inner expression resolved
through `resolve`; a defined value substitutes its `String(…)` form, an
`undefined` result keeps the matched token.  Fuelled like `scanAux`
(see `replaceAux_congr`). -/
def replaceAux (resolve : String → Value) : Nat → List Char → List Char
  | 0, _ => []
  | _ + 1, [] => []
  | fuel + 1, c :: cs =>
    let rest := cs.tail
    let content := rest.takeWhile (· ≠ '}')
    if c = '{' ∧ cs.head? = some '{' ∧ content ≠ [] ∧
        startsWithClose (rest.drop content.length) then
      let value := resolve (jsTrim ⟨content⟩)
      (match value with
       | .undef => '{' :: '{' :: content ++ ['}', '}']
       | v => (jsString v).data) ++
        replaceAux resolve fuel (rest.drop (content.length + 2))
    else
      c :: replaceAux resolve fuel cs

/-- `BaseNode.resolveVariables` over a view. -/
def resolveVariables (view : View) (text : String) : String :=
  ⟨replaceAux (viewResolveExpression view) text.data.length text.data⟩

/-- The anchored single-reference pattern `^\{\{([^}]+)\}\}$` of
`BaseNode.resolveValueExpression`: the whole string is one token. -/
def singleRefMatch (s : String) : Option String :=
  match s.data with
  | '{' :: '{' :: rest =>
    let content := rest.takeWhile (· ≠ '}')
    if content ≠ [] ∧ rest.drop content.length = ['}', '}'] then some ⟨content⟩
    else none
  | _ => none

/-- `BaseNode.resolveValueExpression` (lines 100-115): a single reference
resolves directly (type-preserving), anything else goes through template
substitution. -/
def resolveValueExpression (view : View) (value : String) : Value :=
  match singleRefMatch value with
  | some expression => viewResolveExpression view (jsTrim expression)
  | none => .str (resolveVariables view value)

/-- `BaseNode.resolveObjectVariables`: recursive walk; strings resolve as
values, other leaves pass through. -/
def resolveObjectVariables (view : View) : Value → Value
  | .str s => resolveValueExpression view s
  | .arr l => .arr (walkList l)
  | .obj f => .obj (walkFields f)
  | v => v
where
  walkList : List Value → List Value
    | [] => []
    | v :: rest => resolveObjectVariables view v :: walkList rest
  walkFields : List (String × Value) → List (String × Value)
    | [] => []
    | (k, v) :: rest => (k, resolveObjectVariables view v) :: walkFields rest

/-! ## The Update-Variable executor

The extended executor variant (the one the spec takes as canonical;
operations here restricted to the four — `update`, `join`, `append`,
`filter` — that the claims exercise; the remaining operations of the
extended set are independent `case`s of the same `switch` and are not
embedded). -/
/-- `getNestedValue`: dotted-path lookup with a `key in current` test at
every step. -/
def getNestedValue (v : Value) (path : String) : Value :=
  if isObjLike v then go v (splitDot path) else .undef
where
  go : Value → List String → Value
    | cur, [] => cur
    | cur, k :: ks => if isObjLike cur ∧ hasKey cur k then go (getField cur k) ks else (.undef)

/-- `UpdateVariableNodeExecutor.evaluateCondition` (the `filter`
operation's operator evaluator): `equals`/`not_equals` are `===`/`!==`,
`contains` is substring or element membership, and `greater_than`/
`less_than` require both operands to already be numbers — no coercion. -/
def uvEvaluateCondition (fieldValue : Value) (operator : String)
    (compareValue : Value) : Except String Bool :=
  if operator = "equals" then .ok (jsStrictEq fieldValue compareValue)
  else if operator = "not_equals" then .ok (!jsStrictEq fieldValue compareValue)
  else if operator = "contains" then
    .ok (match fieldValue, compareValue with
      | .str a, .str b => hasSubstring a.data b.data
      | .arr l, b => l.any (fun x => sameValueZero x b)
      | _, _ => false)
  else if operator = "greater_than" then
    .ok (match fieldValue, compareValue with
      | .num a, .num b => numGt a b
      | _, _ => false)
  else if operator = "less_than" then
    .ok (match fieldValue, compareValue with
      | .num a, .num b => numLt a b
      | _, _ => false)
  else .error ("Unknown condition operator: " ++ operator)

/-- The update operation tags embedded here. -/
inductive UpdateOp where
  | update | join | append | filter
  deriving DecidableEq, Repr

/-- The tag string of an operation (the node output's `operation` field). -/
def UpdateOp.tag : UpdateOp → String
  | .update => "update"
  | .join => "join"
  | .append => "append"
  | .filter => "filter"

/-- The `filter` operation's `condition{field, operator, value}`. -/
structure FilterCond where
  field : String
  operator : String
  value : Value
  deriving Repr

/-- The `UPDATE_VARIABLE` node config (the fields the embedded operations
read). -/
structure UpdateConfig where
  variable_id : String
  type : UpdateOp
  join_str : Option String := none
  stringify_output : Option Bool := none
  condition : Option FilterCond := none
  deriving Repr

/-- `filter`'s `Array.prototype.filter` with a throwing predicate. -/
def filterElems (cond : FilterCond) : List Value → Except String (List Value)
  | [] => .ok []
  | item :: rest => do
    let keep ← uvEvaluateCondition (getNestedValue item cond.field) cond.operator cond.value
    let rest' ← filterElems cond rest
    .ok (if keep then item :: rest' else rest')

/-- `UpdateVariableNodeExecutor.performUpdateOperation`, restricted to the
embedded operations.  `join`/`append` default `stringify_output` to true
and JSON-encode object-typed payloads; `append` on a non-array current
value throws; `filter` requires an array payload and a condition. -/
def performUpdateOperation (op : UpdateOp) (currentValue resolvedValue : Value)
    (config : UpdateConfig) : Except String Value :=
  match op with
  | .join =>
    let separator := config.join_str.getD ""
    let shouldStringify := config.stringify_output.getD true
    let render := fun (v : Value) =>
      if jsTypeof v = "object" ∧ shouldStringify then jsonStringify v else jsString v
    match currentValue with
    | .undef => .ok (.str (render resolvedValue))
    | cv => .ok (.str (render cv ++ separator ++ render resolvedValue))
  | .update => .ok resolvedValue
  | .append =>
    match currentValue with
    | .arr elems =>
      let shouldStringify := config.stringify_output.getD true
      let valueToAppend :=
        if jsTypeof resolvedValue = "object" ∧ shouldStringify then
          Value.str (jsonStringify resolvedValue)
        else resolvedValue
      .ok (.arr (elems ++ [valueToAppend]))
    | _ => .error "Cannot append to variable as it is not an array."
  | .filter =>
    match resolvedValue with
    | .arr elems =>
      match config.condition with
      | some cond => (filterElems cond elems).map Value.arr
      | none => .error "Filter operation requires condition configuration"
    | _ => .error "Filter operation requires an array input"

/-! ## Condition executor (`src/core/nodes/condition/ConditionNode.ts`) -/
/-- `ConditionNodeExecutor.evaluateCondition` (lines 82-115):
`greater_than`/`less_than` numerically coerce both operands with
`Number(…)`; a missing operator throws
`Unknown condition operator: undefined`. -/
def condEvaluateCondition (switchValue : Value) (condition : Option String)
    (conditionValue : Value) : Except String Bool :=
  match condition with
  | none => .error "Unknown condition operator: undefined"
  | some operator =>
    if operator = "equals" then .ok (jsStrictEq switchValue conditionValue)
    else if operator = "not_equals" then .ok (!jsStrictEq switchValue conditionValue)
    else if operator = "greater_than" then
      .ok (numGt (jsToNumber switchValue) (jsToNumber conditionValue))
    else if operator = "less_than" then
      .ok (numLt (jsToNumber switchValue) (jsToNumber conditionValue))
    else if operator = "contains" then
      .ok (match switchValue, conditionValue with
        | .str a, .str b => hasSubstring a.data b.data
        | .arr l, b => l.any (fun x => sameValueZero x b)
        | _, _ => false)
    else .error ("Unknown condition operator: " ++ operator)

/-! ## Node definitions and the executor

`NodeDef` covers the node kinds the claims execute.  The LLM node's
external provider (§6 collaborator contract) is modelled as a pure
function from the resolved message texts to the validated output it
returns; everything else is embedded from the sources.  `executionTime`
(wall clock) and logging are not modelled; the `executionTime` field of a
result record is omitted from the embedded record values. -/
mutual
inductive NodeDef where
  | update : (id : String) → (config : UpdateConfig) → (value : String) → NodeDef
  | condNode : (id : String) → (switch_value : String) →
      (branches : List CBranch) → NodeDef
  | forEach : (id : String) → (each_key : Option String) → (items : String) →
      (each_nodes : List NodeDef) → NodeDef
  | llm : (id : String) → (messages : List String) →
      (reply : List String → Value) → NodeDef

inductive CBranch where
  | mk : (name : String) → (condition : Option String) → (value : Value) →
      (nodes : List NodeDef) → CBranch
end

def NodeDef.id : NodeDef → String
  | .update i _ _ => i
  | .condNode i _ _ => i
  | .forEach i _ _ _ => i
  | .llm i _ _ => i

/-- The node's `type` tag string. -/
def NodeDef.kindTag : NodeDef → String
  | .update _ _ _ => "UPDATE_VARIABLE"
  | .condNode _ _ _ => "CONDITION"
  | .forEach _ _ _ _ => "FOR_EACH"
  | .llm _ _ _ => "LLM"

def CBranch.name : CBranch → String
  | .mk n _ _ _ => n

def CBranch.condition : CBranch → Option String
  | .mk _ c _ _ => c

def CBranch.value : CBranch → Value
  | .mk _ _ v _ => v

def CBranch.nodes : CBranch → List NodeDef
  | .mk _ _ _ ns => ns

/-- `BaseNode.executeWithContext`'s result record (without the wall-clock
`executionTime`). -/
structure NodeResult where
  success : Bool
  output : Option Value := none
  error : Option String := none
  deriving Repr

/-- The result record as the JS object pushed into a Condition node's
`results` array: `{success, output?, error?}`. -/
def NodeResult.toValue (r : NodeResult) : Value :=
  .obj ([("success", .bool r.success)] ++
    (match r.output with | some o => [("output", o)] | none => []) ++
    (match r.error with | some e => [("error", .obj [("message", .str e)])] | none => []))

/-- The branch-scan loop of `ConditionNodeExecutor.findMatchingBranch`
(lines 57-80): first non-`default` branch whose condition evaluates true;
an evaluation error propagates. -/
def findLoop (switchValue : Value) : List CBranch → Except String (Option CBranch)
  | [] => .ok none
  | b :: rest =>
    if b.name = "default" then findLoop switchValue rest
    else
      match condEvaluateCondition switchValue b.condition b.value with
      | .error e => .error e
      | .ok true => .ok (some b)
      | .ok false => findLoop switchValue rest

/-- `ConditionNodeExecutor.findMatchingBranch`: scan, then fall back to
the `default` branch when present. -/
def findMatchingBranch (switchValue : Value) (branches : List CBranch) :
    Except String (Option CBranch) :=
  match findLoop switchValue branches with
  | .error e => .error e
  | .ok (some b) => .ok (some b)
  | .ok none => .ok (branches.find? (fun b => decide (b.name = "default")))

/-- `BaseNode.executeWithContext` (lines 36-64): an executor exception is
converted into a failed result; mutations made before the throw persist. -/
def execWithContext (exec : NodeDef → View → (Except String Value) × View)
    (node : NodeDef) (view : View) : NodeResult × View :=
  match exec node view with
  | (.ok output, view') => ({ success := true, output := some output }, view')
  | (.error e, view') => ({ success := false, error := some e }, view')

/-- The child loop of `ConditionNodeExecutor.execute` (lines 38-42):
children run in order against the same view, each full result record is
pushed (no output is stored in the registry). -/
def runBranchNodes (exec : NodeDef → View → (Except String Value) × View) :
    List NodeDef → View → List Value × View
  | [], view => ([], view)
  | n :: rest, view =>
    let (r, view₁) := execWithContext exec n view
    let (rs, view₂) := runBranchNodes exec rest view₁
    (r.toValue :: rs, view₂)

/-- One iteration-result entry of `ForEachNodeExecutor.execute`
(lines 82-89): `{nodeId, nodeType, result, success, error}`. -/
def iterEntry (n : NodeDef) (r : NodeResult) : Value :=
  .obj [("nodeId", .str n.id), ("nodeType", .str n.kindTag),
        ("result", if r.success then r.output.getD .undef else .null),
        ("success", .bool r.success),
        ("error", match r.error with | some m => .str m | none => .undef)]

/-- The body loop of one For-Each iteration (lines 70-95): each body node
runs via `executeWithContext` against the scoped view; a successful
child's output is stored through the scoped `setNodeOutput`; a failing
child is recorded and the loop continues. -/
def runEachNodes (exec : NodeDef → View → (Except String Value) × View) :
    List NodeDef → View → List Value × View
  | [], view => ([], view)
  | n :: rest, view =>
    let (r, view₁) := execWithContext exec n view
    let view₂ :=
      if r.success then viewSetNodeOutput view₁ n.id (r.output.getD .undef) else view₁
    let (rs, view₃) := runEachNodes exec rest view₂
    (iterEntry n r :: rs, view₃)

/-- The item loop of `ForEachNodeExecutor.execute` (lines 51-107): per
item, a fresh scope (fresh iteration-local output store) is pushed, the
body runs, and the scope is dropped again — mutations of the base
registry and of enclosing scopes persist. -/
def forEachIterate (exec : NodeDef → View → (Except String Value) × View)
    (eachKey : String) (body : List NodeDef) :
    List Value → Nat → View → List Value × View
  | [], _, view => ([], view)
  | item :: rest, i, view =>
    let scopedView : View :=
      ⟨view.base, { eachKey := eachKey, currentItem := item, index := i } :: view.scopes⟩
    let (iterResults, sv') := runEachNodes exec body scopedView
    let view' : View := ⟨sv'.base, sv'.scopes.tail⟩
    let entry := Value.obj
      [("item", item), ("index", .num (some i)), ("results", .arr iterResults)]
    let (restResults, view'') := forEachIterate exec eachKey body rest (i + 1) view'
    (entry :: restResults, view'')

/-- The node executor, fuelled by nesting depth (the fuel only bounds
recursion into For-Each bodies and Condition branches; `0` never occurs
for adequate fuel). -/
def execNode : Nat → NodeDef → View → (Except String Value) × View
  | 0, _, view => (.error "node nesting exceeds fuel", view)
  | fuel + 1, node, view =>
    match node with
    | .update _ cfg valueStr =>
      let resolvedValue := resolveValueExpression view valueStr
      let currentValue := viewGetVariable view cfg.variable_id
      match performUpdateOperation cfg.type currentValue resolvedValue cfg with
      | .error e => (.error e, view)
      | .ok newValue =>
        match viewSetVariable view cfg.variable_id newValue with
        | .error e => (.error e, view)
        | .ok view' =>
          (.ok (.obj [("variable_id", .str cfg.variable_id),
                      ("previous_value", currentValue),
                      ("new_value", newValue),
                      ("operation", .str cfg.type.tag),
                      ("resolved_input", resolvedValue)]), view')
    | .llm _ messages reply =>
      (.ok (reply (messages.map (fun m => resolveVariables view m))), view)
    | .condNode _ switchExpr branches =>
      let switchValue := resolveValueExpression view switchExpr
      match findMatchingBranch switchValue branches with
      | .error e => (.error e, view)
      | .ok none =>
        (.ok (.obj [("matched_branch", .null), ("results", .arr [])]), view)
      | .ok (some b) =>
        let (results, view') := runBranchNodes (execNode fuel) b.nodes view
        (.ok (.obj [("matched_branch", .str b.name), ("results", .arr results)]), view')
    | .forEach nid each_key items body =>
      let inputList := resolveValueExpression view items
      match inputList with
      | .arr itemsList =>
        let eachKey := match each_key with
          | some k => if k = "" then "current" else k
          | none => "current"
        let (results, view') :=
          forEachIterate (execNode fuel) eachKey body itemsList 0 view
        (.ok (.obj [("total_items", .num (some itemsList.length)),
                    ("processed_items", .num (some results.length)),
                    ("results", .arr results)]), view')
      | v =>
        (.error ("ForEach node '" ++ nid ++ "' input must be an array, but got " ++
          jsTypeof v), view)

/-! ## Claim C5: `ExecutionRegistry.resolveExpression` -/
/-- The resolution rule as claim C5 states it: no tail — the node output
recorded under the head if one is recorded, otherwise the variable with
that id; non-empty tail — node-output navigation: the recorded output of
the head navigated field by field along the tail, `undefined` when the
head has no recorded output or a navigation step is not possible (the
current value is not an object). -/
def claimC5Resolve (reg : Registry) (expression : String) : Value :=
  match splitDot expression with
  | [] => .undef
  | [head] =>
    if reg.hasNodeOutput head then reg.getNodeOutput head else reg.getVariable head
  | head :: tail =>
    match aget? reg.outs head with
    | none => .undef
    | some recorded => navigate recorded tail

/-! ## Claim C2: which references create dependency edges -/
/-- All reference tokens of a node's payload strings (the validator's
`extractVariableReferences` scans the JSON form of the whole node, which
over this node model is the concatenation of its payload strings). -/
def payloadRefs (n : VNode) : List VariableReference :=
  (n.value.toList ++
    n.messages.flatMap (fun m => m.text.toList ++ m.image_url.toList ++ m.image_path.toList) ++
    n.otherPayload).flatMap extractFromText

/-- The edge relation as the counterexample forces the claim to be
amended: B's node kind must be `UPDATE_VARIABLE` (token in its truthy
`value`) or `LLM` (token in a truthy message `text` / `image_url` /
`image_path`); the token's head is A and its joined dotted tail is
nonempty and starts with the string `output`. -/
def claimC2AmendedEdge (A : String) (B : VNode) : Prop :=
  (B.type = NodeKind.updateVariable ∧ ∃ v, B.value = some v ∧ v ≠ "" ∧
    ∃ r ∈ extractFromText v,
      (r.path ≠ "" ∧ jsStartsWith r.path "output") ∧ r.nodeId = A) ∨
  (B.type = NodeKind.llm ∧ ∃ m ∈ B.messages, ∃ s : String,
    ((m.text = some s ∧ s ≠ "") ∨ (m.image_url = some s ∧ s ≠ "") ∨
      (m.image_path = some s ∧ s ≠ "")) ∧
    ∃ r ∈ extractFromText s,
      (r.path ≠ "" ∧ jsStartsWith r.path "output") ∧ r.nodeId = A)

/-! ## Claim C8: Condition branch selection -/
/-- The operator semantics of spec §4.7 (strict equality; numeric
coercion with NaN ↦ false for the comparisons; substring / membership
for `contains`), which claim C8 references for branch evaluation. -/
def specOperatorEval (op : String) (sv val : Value) : Bool :=
  if op = "equals" then jsStrictEq sv val
  else if op = "not_equals" then !jsStrictEq sv val
  else if op = "greater_than" then numGt (jsToNumber sv) (jsToNumber val)
  else if op = "less_than" then numLt (jsToNumber sv) (jsToNumber val)
  else if op = "contains" then
    (match sv, val with
      | .str a, .str b => hasSubstring a.data b.data
      | .arr l, b => l.any (fun x => sameValueZero x b)
      | _, _ => false)
  else false

/-- Is `op` one of the five defined operators? -/
def knownOp (op : String) : Bool :=
  op = "equals" || op = "not_equals" || op = "greater_than" ||
    op = "less_than" || op = "contains"

/-- Does branch `b` fire against the switch value, per the claim's words? -/
def specBranchFires (sv : Value) (b : CBranch) : Bool :=
  match b.condition with
  | some op => specOperatorEval op sv b.value
  | none => false

/-- The branch claim C8 says fires: the first branch in declaration
order, skipping the reserved `default`, whose (operator, value) pair
evaluates true against the switch value; else the `default` branch when
present. -/
def specFiringBranch (sv : Value) (branches : List CBranch) : Option CBranch :=
  match branches.find? (fun b => decide (b.name ≠ "default") && specBranchFires sv b) with
  | some b => some b
  | none => branches.find? (fun b => decide (b.name = "default"))

/-! ## C4: segment decomposition of the template pass

`BaseNode.resolveVariables` is a single left-to-right pass.  To state the
claim "every token with a defined value is substituted, every token with an
undefined value is kept literally", the input is decomposed into *segments*
(literal characters and reference tokens); `joinRaw` shows the decomposition
reconstructs the input exactly, and `renderSegs` renders each segment the
way the replacement pass does. -/
/-- A segment of a template string: a literal character, or a
`\x7b\x7b…\x7d\x7d` reference token (raw characters plus inner
expression). -/
inductive Seg where
  | lit (c : Char)
  | ref (raw : List Char) (inner : String)
  deriving Repr

/-- Decompose a character list into segments, branch for branch the same
recursion as `replaceAux`/`scanAux`. -/
def tokenSegs : Nat → List Char → List Seg
  | 0, _ => []
  | _ + 1, [] => []
  | fuel + 1, c :: cs =>
    let rest := cs.tail
    let content := rest.takeWhile (· ≠ '}')
    if c = '{' ∧ cs.head? = some '{' ∧ content ≠ [] ∧
        startsWithClose (rest.drop content.length) then
      .ref ('{' :: '{' :: content ++ ['}', '}']) ⟨content⟩ ::
        tokenSegs fuel (rest.drop (content.length + 2))
    else
      .lit c :: tokenSegs fuel cs

/-- The raw source characters of a segment. -/
def segRaw : Seg → List Char
  | .lit c => [c]
  | .ref raw _ => raw

/-- Concatenated raw characters of a segment list. -/
def joinRaw : List Seg → List Char
  | [] => []
  | s :: rest => segRaw s ++ joinRaw rest

/-- Render one segment through a resolver: a literal character stays, a
reference token whose trimmed inner expression resolves to a defined value
becomes the `String(…)` form of that value, and one resolving to
`undefined` keeps its raw token. -/
def renderSeg (resolve : String → Value) : Seg → List Char
  | .lit c => [c]
  | .ref raw inner =>
    match resolve (jsTrim inner) with
    | .undef => raw
    | v => (jsString v).data

/-- Concatenated rendering of a segment list. -/
def renderSegs (resolve : String → Value) : List Seg → List Char
  | [] => []
  | s :: rest => renderSeg resolve s ++ renderSegs resolve rest

/-! ## Claim C3: sibling references inside a For-Each body -/
/-- C3 scenario, node `A`: an Update-Variable whose value references its
sibling `B`'s output. -/
def c3A : NodeDef :=
  .update "A" { variable_id := "capture", type := .update } "\x7b\x7bB.output.tag\x7d\x7d"

/-- C3 scenario, node `B`: an LLM node that echoes the current iteration
index into `output.tag`. -/
def c3B : NodeDef :=
  .llm "B" ["\x7b\x7bi_index\x7d\x7d"]
    (fun msgs => .obj [("output", .obj [("tag", .str (msgs.headD ""))])])

/-- C3 scenario: a For-Each over `items` with key `i` and body `[A, B]` —
`A` references `B.output.tag` and runs *before* `B` in every iteration. -/
def c3F : NodeDef := .forEach "F" (some "i") "\x7b\x7bitems\x7d\x7d" [c3A, c3B]

/-- C3 scenario: a base registry holding `items = ["a", "b"]`. -/
def c3Reg : Registry := { vars := [("items", .arr [.str "a", .str "b"])] }

/-! ## Theorems -/

theorem takeWhile_length_le (p : Char → Bool) :
    ∀ l : List Char, (l.takeWhile p).length ≤ l.length := by
  intro l
  induction l with
  | nil => simp
  | cons c cs ih =>
    by_cases h : p c
    · simpa [List.takeWhile_cons, h] using Nat.succ_le_succ ih
    · simp only [List.takeWhile_cons, h]
      simp only [Bool.false_eq_true, if_false, List.length_nil, List.length_cons]
      omega

theorem scanAux_congr :
    ∀ (f₁ f₂ : Nat) (cs : List Char), cs.length ≤ f₁ → cs.length ≤ f₂ →
      scanAux f₁ cs = scanAux f₂ cs := by
  intro f₁
  induction f₁ with
  | zero =>
    intro f₂ cs h₁ _
    have : cs = [] := List.eq_nil_of_length_eq_zero (by omega)
    subst this
    cases f₂ <;> simp [scanAux]
  | succ f₁ ih =>
    intro f₂ cs h₁ h₂
    cases f₂ with
    | zero =>
      have : cs = [] := List.eq_nil_of_length_eq_zero (by omega)
      subst this
      simp [scanAux]
    | succ f₂ =>
      cases cs with
      | nil => simp [scanAux]
      | cons c cs' =>
        simp only [scanAux]
        simp only [List.length_cons] at h₁ h₂
        have hlt : cs'.tail.length ≤ cs'.length := by
          cases cs' <;> simp
        by_cases hc : c = '{' ∧ cs'.head? = some '{' ∧
            cs'.tail.takeWhile (· ≠ '}') ≠ [] ∧
            startsWithClose (cs'.tail.drop (cs'.tail.takeWhile (· ≠ '}')).length)
        · rw [if_pos hc, if_pos hc]
          congr 1
          apply ih
          · simp only [List.length_drop]
            omega
          · simp only [List.length_drop]
            omega
        · rw [if_neg hc, if_neg hc]
          exact ih f₂ cs' (by omega) (by omega)

theorem depsOf_nodup {g : List (String × List String)} (hwf : WFGraph g) (b : String) :
    (depsOf g b).Nodup := by
  unfold depsOf
  cases h : g.find? (fun p => p.1 = b) with
  | none => simp
  | some p => exact hwf.2 p (List.mem_of_find?_eq_some h)

theorem removing_one_from_filter {α} [DecidableEq α] (p : α → Bool) (q : α) :
    ∀ l : List α, l.Nodup → q ∈ l → p q = true →
      (l.filter p).length = (l.filter (fun a => p a && !(decide (a = q)))).length + 1 := by
  intro l
  induction l with
  | nil => simp
  | cons c cs ih =>
    intro hnd hq hpq
    rcases List.mem_cons.mp hq with rfl | hq'
    · have hnotin : q ∉ cs := (List.nodup_cons.mp hnd).1
      have hcongr : cs.filter (fun a => p a && !(decide (a = q))) = cs.filter p := by
        apply List.filter_congr
        intro a ha
        have : a ≠ q := fun h => hnotin (h ▸ ha)
        simp [this]
      simp [List.filter_cons, hpq, hcongr]
    · have hnd' := (List.nodup_cons.mp hnd).2
      have hcq : c ≠ q := by
        rintro rfl
        exact (List.nodup_cons.mp hnd).1 hq'
      by_cases hc : p c = true
      · simp [List.filter_cons, hc, hcq, ih hnd' hq' hpq]
      · simp only [Bool.not_eq_true] at hc
        simp [List.filter_cons, hc, ih hnd' hq' hpq]

theorem append_singleton_cases {α} (res l₁ l₂ : List α) (q b : α)
    (h : res ++ [q] = l₁ ++ b :: l₂) :
    (l₁ = res ∧ b = q ∧ l₂ = []) ∨ ∃ l₂', l₂ = l₂' ++ [q] ∧ res = l₁ ++ b :: l₂' := by
  rcases List.eq_nil_or_concat l₂ with rfl | ⟨l₂', x, rfl⟩
  · left
    have hlen : ([q] : List α).length = ([b] : List α).length := by simp
    have := List.append_inj' (by simpa using h) (by simp)
    refine ⟨this.1.symm, ?_, rfl⟩
    simpa using this.2.symm
  · right
    have h' : res ++ [q] = (l₁ ++ b :: l₂') ++ [x] := by
      simpa [List.append_assoc] using h
    have := List.append_inj' h' (by simp)
    have hx : q = x := by simpa using this.2
    exact ⟨l₂', by simp [List.concat_eq_append, hx], this.1⟩

theorem kahnStep_inv (g : List (String × List String)) (hwf : WFGraph g)
    (deg : String → Int) (q : String) (qs res : List String)
    (hinv : KahnInv g deg (q :: qs) res) :
    KahnInv g (kahnStep g deg q).1 (qs ++ (kahnStep g deg q).2) (res ++ [q]) := by
  obtain ⟨h1, h2, h3, h4, h5⟩ := hinv
  have hqk : q ∈ graphKeys g := h2 q (by simp)
  have hdisj : List.Disjoint res (q :: qs) := List.disjoint_of_nodup_append h1
  have hqres : q ∉ res := fun hq => hdisj hq (by simp)
  have hresnd : res.Nodup := h1.of_append_left
  have hqnd : (q :: qs).Nodup := h1.of_append_right
  have hqqs : q ∉ qs := (List.nodup_cons.mp hqnd).1
  set newly := (kahnStep g deg q).2 with hnewly
  have hnewly_def : newly =
      (graphKeys g).filter (fun b => (depsOf g b).contains q && (deg b - 1 == 0)) := rfl
  have hmem_newly : ∀ b ∈ newly, b ∈ graphKeys g ∧ q ∈ depsOf g b ∧ deg b = 1 := by
    intro b hb
    rw [hnewly_def] at hb
    have := List.of_mem_filter hb
    simp only [Bool.and_eq_true, List.elem_iff, beq_iff_eq] at this
    exact ⟨List.mem_of_mem_filter hb, this.1, by omega⟩
  have hfresh : ∀ b ∈ newly, b ∉ res ∧ b ∉ q :: qs := by
    intro b hb
    obtain ⟨hbk, hbq, hbdeg⟩ := hmem_newly b hb
    constructor
    · intro hbres
      obtain ⟨l₁, l₂, hsplit⟩ := List.append_of_mem hbres
      have : q ∈ l₁ := h4 l₁ b l₂ hsplit q hbq hqk
      exact hqres (hsplit ▸ List.mem_append_left _ this)
    · intro hbq'
      exact hqres (h3 b hbq' q hbq hqk)
  have hnewnd : newly.Nodup := by
    rw [hnewly_def]; exact hwf.1.filter _
  refine ⟨?_, ?_, ?_, ?_, ?_⟩
  · -- Nodup
    have hre : (res ++ [q]) ++ (qs ++ newly) = (res ++ q :: qs) ++ newly := by
      simp [List.append_assoc]
    rw [hre]
    refine h1.append hnewnd ?_
    intro x hx hxn
    rcases List.mem_append.mp hx with hx | hx
    · exact (hfresh x hxn).1 hx
    · exact (hfresh x hxn).2 hx
  · -- membership in keys
    intro x hx
    rcases List.mem_append.mp hx with hx | hx
    · rcases List.mem_append.mp hx with hx | hx
      · exact h2 x (List.mem_append_left _ hx)
      · simp only [List.mem_singleton] at hx
        exact hx ▸ hqk
    · rcases List.mem_append.mp hx with hx | hx
      · exact h2 x (List.mem_append_right _ (by simp [hx]))
      · exact (hmem_newly x hx).1
  · -- queued vertices have all in-graph deps emitted
    intro b hb a ha hak
    rcases List.mem_append.mp hb with hb | hb
    · exact List.mem_append_left _ (h3 b (by simp [hb]) a ha hak)
    · obtain ⟨hbk, hbq, hbdeg⟩ := hmem_newly b hb
      obtain ⟨hbres, hbqqs⟩ := hfresh b hb
      obtain ⟨hdeg, hpos⟩ := h5 b hbk hbres hbqqs
      have hcount : unproc g res b = 1 := by omega
      obtain ⟨x, hx⟩ := List.length_eq_one.mp hcount
      by_cases hares : a ∈ res
      · exact List.mem_append_left _ hares
      · have hafilter : a ∈ (depsOf g b).filter
            (fun a => decide (a ∈ graphKeys g) && !(decide (a ∈ res))) := by
          apply List.mem_filter.mpr
          exact ⟨ha, by simp [hak, hares]⟩
        rw [hx] at hafilter
        have hqfilter : q ∈ (depsOf g b).filter
            (fun a => decide (a ∈ graphKeys g) && !(decide (a ∈ res))) := by
          apply List.mem_filter.mpr
          exact ⟨hbq, by simp [hqk, hqres]⟩
        rw [hx] at hqfilter
        simp only [List.mem_singleton] at hafilter hqfilter
        apply List.mem_append_right
        simp [hafilter, hqfilter.symm]
  · -- emitted vertices have deps strictly earlier
    intro l₁ b l₂ hsplit a ha hak
    rcases append_singleton_cases res l₁ l₂ q b hsplit with ⟨rfl, rfl, rfl⟩ | ⟨l₂', _, hres⟩
    · exact h3 b (by simp) a ha hak
    · exact h4 l₁ b l₂' hres a ha hak
  · -- in-degree bookkeeping for untouched vertices
    intro b hbk hbres hbq
    have hbres' : b ∉ res := fun h => hbres (List.mem_append_left _ h)
    have hbq' : b ≠ q := by
      rintro rfl
      exact hbres (List.mem_append_right _ (by simp))
    have hbqs : b ∉ qs := fun h => hbq (List.mem_append_left _ h)
    have hbnew : b ∉ newly := fun h => hbq (List.mem_append_right _ h)
    have hbqqs : b ∉ q :: qs := by
      intro h
      rcases List.mem_cons.mp h with h | h
      · exact hbq' h
      · exact hbqs h
    obtain ⟨hdeg, hpos⟩ := h5 b hbk hbres' hbqqs
    have hstep1 : (kahnStep g deg q).1 b =
        if (depsOf g b).contains q then deg b - 1 else deg b := rfl
    by_cases hqd : q ∈ depsOf g b
    · -- q was an unemitted in-graph dependency of b: count drops by one
      have hdec : unproc g res b =
          ((depsOf g b).filter (fun a =>
            (decide (a ∈ graphKeys g) && !(decide (a ∈ res))) &&
              !(decide (a = q)))).length + 1 := by
        apply removing_one_from_filter _ q _ (depsOf_nodup hwf b) hqd
        simp [hqk, hqres]
      have hsame : (depsOf g b).filter (fun a =>
            (decide (a ∈ graphKeys g) && !(decide (a ∈ res))) && !(decide (a = q))) =
          (depsOf g b).filter (fun a =>
            decide (a ∈ graphKeys g) && !(decide (a ∈ res ++ [q]))) := by
        apply List.filter_congr
        intro a _
        by_cases haq : a = q
        · subst haq
          simp
        · simp [List.mem_append, haq]
      have hunproc' : unproc g (res ++ [q]) b + 1 = unproc g res b := by
        rw [hdec]
        unfold unproc
        rw [hsame]
      have hbnotnew : ¬(q ∈ depsOf g b ∧ deg b - 1 = 0) := by
        intro ⟨_, hz⟩
        apply hbnew
        rw [hnewly_def]
        apply List.mem_filter.mpr
        refine ⟨hbk, ?_⟩
        simp only [Bool.and_eq_true, List.elem_iff, beq_iff_eq]
        exact ⟨hqd, hz⟩
      have hdegnz : deg b - 1 ≠ 0 := fun h => hbnotnew ⟨hqd, h⟩
      constructor
      · rw [hstep1, if_pos (List.elem_iff.mpr hqd)]
        omega
      · omega
    · -- q is not a dependency of b: nothing changes
      have hsame : (depsOf g b).filter (fun a =>
            decide (a ∈ graphKeys g) && !(decide (a ∈ res ++ [q]))) =
          (depsOf g b).filter (fun a =>
            decide (a ∈ graphKeys g) && !(decide (a ∈ res))) := by
        apply List.filter_congr
        intro a ha
        have haq : a ≠ q := fun h => hqd (h ▸ ha)
        simp [List.mem_append, haq]
      have hunproc' : unproc g (res ++ [q]) b = unproc g res b := by
        unfold unproc
        rw [hsame]
      have hnc : ¬((depsOf g b).contains q = true) := by
        simpa [List.elem_iff] using hqd
      constructor
      · rw [hstep1, if_neg hnc, hunproc']
        exact hdeg
      · rw [hunproc']
        exact hpos

theorem kahnLoop_post (g : List (String × List String)) (hwf : WFGraph g) :
    ∀ (fuel : Nat) (deg : String → Int) (queue res : List String),
      KahnInv g deg queue res → KahnPost g (kahnLoop g fuel deg queue res) := by
  intro fuel
  induction fuel with
  | zero =>
    intro deg queue res hinv
    exact ⟨hinv.1.of_append_left, fun x hx => hinv.2.1 x (List.mem_append_left _ hx),
      hinv.2.2.2.1⟩
  | succ fuel ih =>
    intro deg queue res hinv
    cases queue with
    | nil =>
      exact ⟨hinv.1.of_append_left, fun x hx => hinv.2.1 x (List.mem_append_left _ hx),
        hinv.2.2.2.1⟩
    | cons q qs =>
      rw [kahnLoop]
      exact ih _ _ _ (kahnStep_inv g hwf deg q qs res hinv)

theorem kahnInit_inv (g : List (String × List String)) (hwf : WFGraph g) :
    KahnInv g (initInDegree g)
      ((graphKeys g).filter (fun b => initInDegree g b == 0)) [] := by
  refine ⟨by simpa using hwf.1.filter _, ?_, ?_, ?_, ?_⟩
  · intro x hx
    simp only [List.nil_append] at hx
    exact List.mem_of_mem_filter hx
  · intro b hb a ha hak
    have hdeg : initInDegree g b = 0 := by
      have := List.of_mem_filter hb
      simpa using this
    have hlen : ((depsOf g b).filter (fun a => (graphKeys g).contains a)).length = 0 := by
      unfold initInDegree at hdeg
      omega
    have hnil := List.length_eq_zero.mp hlen
    have : a ∈ (depsOf g b).filter (fun a => (graphKeys g).contains a) := by
      apply List.mem_filter.mpr
      simp [ha, List.elem_iff, hak]
    rw [hnil] at this
    simp at this
  · intro l₁ b l₂ h
    cases l₁ <;> simp at h
  · intro b hbk hbres hbq
    have hdeg : ¬(initInDegree g b == 0) = true := by
      intro h
      exact hbq (List.mem_filter.mpr ⟨hbk, h⟩)
    have hfe : (depsOf g b).filter
          (fun a => decide (a ∈ graphKeys g) && !(decide (a ∈ ([] : List String)))) =
        (depsOf g b).filter (fun a => (graphKeys g).contains a) := by
      apply List.filter_congr
      intro a _
      by_cases h : a ∈ graphKeys g
      · have hc : (graphKeys g).contains a = true := List.elem_iff.mpr h
        simp [h, hc]
      · have hc : (graphKeys g).contains a = false := by
          by_contra hcc
          simp only [Bool.not_eq_false] at hcc
          exact h (List.elem_iff.mp hcc)
        simp [h, hc]
    have hunproc : unproc g [] b = initInDegree g b := by
      unfold unproc initInDegree
      rw [hfe]
    simp only [beq_iff_eq] at hdeg
    have hpos : initInDegree g b ≠ 0 := hdeg
    unfold initInDegree at hpos hunproc ⊢
    constructor
    · omega
    · omega

theorem topologicalSort_spec (g : List (String × List String)) (hwf : WFGraph g)
    (order : List String) (h : topologicalSort g = some order) :
    order.Nodup ∧ (∀ x, x ∈ order ↔ x ∈ graphKeys g) ∧
    ∀ a b, b ∈ graphKeys g → a ∈ depsOf g b → a ∈ graphKeys g →
      ∃ l₁ l₂, order = l₁ ++ b :: l₂ ∧ a ∈ l₁ := by
  unfold topologicalSort at h
  set r := kahnLoop g g.length (initInDegree g)
    ((graphKeys g).filter (fun b => initInDegree g b == 0)) [] with hr
  by_cases hl : r.length = g.length
  · simp only [← hr, hl, if_pos] at h
    obtain ⟨hnd, hsub, horder⟩ := kahnLoop_post g hwf g.length _ _ [] (kahnInit_inv g hwf)
    rw [← hr] at hnd hsub horder
    injection h with h
    subst h
    have hkeylen : (graphKeys g).length = g.length := by
      unfold graphKeys
      simp
    have hcomplete : ∀ x ∈ graphKeys g, x ∈ r := by
      intro x hx
      have hsubf : r.toFinset ⊆ (graphKeys g).toFinset := by
        intro y hy
        simp only [List.mem_toFinset] at hy ⊢
        exact hsub y hy
      have hcard1 : r.toFinset.card = r.length := List.toFinset_card_of_nodup hnd
      have hcard2 : (graphKeys g).toFinset.card = (graphKeys g).length :=
        List.toFinset_card_of_nodup hwf.1
      have : (graphKeys g).toFinset ⊆ r.toFinset := by
        apply Finset.subset_of_eq
        apply (Finset.eq_of_subset_of_card_le hsubf ?_).symm
        omega
      have := this (List.mem_toFinset.mpr hx)
      exact List.mem_toFinset.mp this
    refine ⟨hnd, fun x => ⟨hsub x, hcomplete x⟩, ?_⟩
    intro a b hbk hab hak
    obtain ⟨l₁, l₂, hsplit⟩ := List.append_of_mem (hcomplete b hbk)
    exact ⟨l₁, l₂, hsplit, horder l₁ b l₂ hsplit a hab hak⟩
  · simp [← hr, hl] at h

theorem insertUnique_nodup (l : List String) (x : String) (h : l.Nodup) :
    (insertUnique l x).Nodup := by
  unfold insertUnique
  by_cases hx : x ∈ l
  · simpa [hx]
  · rw [if_neg hx]
    refine h.append (by simp) ?_
    intro a ha hax
    simp only [List.mem_singleton] at hax
    subst hax
    exact hx ha

theorem nodeDeps_nodup (n : VNode) : (nodeDeps n).Nodup := by
  unfold nodeDeps
  generalize extractNodeReferences n = refs
  have : ∀ (acc : List String), acc.Nodup →
      (refs.foldl (fun acc r =>
        if r.path ≠ "" ∧ jsStartsWith r.path "output" then insertUnique acc r.nodeId
        else acc) acc).Nodup := by
    induction refs with
    | nil => intro acc h; simpa
    | cons r rs ih =>
      intro acc h
      simp only [List.foldl_cons]
      by_cases hc : r.path ≠ "" ∧ jsStartsWith r.path "output"
      · rw [if_pos hc]
        exact ih _ (insertUnique_nodup acc r.nodeId h)
      · rw [if_neg hc]
        exact ih _ h
  exact this [] (by simp)

theorem buildDependencyGraph_wf (nodes : List VNode)
    (hids : (nodes.map VNode.id).Nodup) : WFGraph (buildDependencyGraph nodes) := by
  constructor
  · unfold graphKeys buildDependencyGraph
    simpa [List.map_map, Function.comp] using hids
  · intro p hp
    unfold buildDependencyGraph at hp
    obtain ⟨n, _, rfl⟩ := List.mem_map.mp hp
    exact nodeDeps_nodup n

/-- C1.  For every pair of nodes A, B of a validated flow such that the
validator's dependency graph contains an edge A→B (B depends on A), A
appears before B in the execution order emitted by the validator
(`topologicalSort` succeeded, which is what flow validation requires), and
the execution order contains every node of the flow exactly once. -/
theorem C1_execution_order_respects_dependencies
    (nodes : List VNode) (hids : (nodes.map VNode.id).Nodup)
    (order : List String)
    (h : topologicalSort (buildDependencyGraph nodes) = some order) :
    (∀ A B, A ∈ depsOf (buildDependencyGraph nodes) B →
      A ∈ nodes.map VNode.id → B ∈ nodes.map VNode.id →
      ∃ l₁ l₂, order = l₁ ++ B :: l₂ ∧ A ∈ l₁) ∧
    (∀ x ∈ nodes.map VNode.id, order.count x = 1) ∧
    (∀ x ∈ order, x ∈ nodes.map VNode.id) := by
  have hwf := buildDependencyGraph_wf nodes hids
  have hkeys : graphKeys (buildDependencyGraph nodes) = nodes.map VNode.id := by
    unfold graphKeys buildDependencyGraph
    simp [List.map_map, Function.comp]
  obtain ⟨hnd, hmem, hbefore⟩ := topologicalSort_spec _ hwf order h
  refine ⟨?_, ?_, ?_⟩
  · intro A B hAB hA hB
    refine hbefore A B ?_ hAB ?_
    · rw [hkeys]; exact hB
    · rw [hkeys]; exact hA
  · intro x hx
    refine List.count_eq_one_of_mem hnd ((hmem x).mpr ?_)
    rw [hkeys]; exact hx
  · intro x hx
    have hm := (hmem x).mp hx
    rwa [hkeys] at hm

/-- Witness for C1 at a concrete two-node flow with one edge. -/
theorem C1_witness :
    (([{ id := "B", type := NodeKind.updateVariable,
         value := some "\x7b\x7bA.output.x\x7d\x7d" },
       { id := "A", type := NodeKind.updateVariable,
         value := some "hi" }] : List VNode).map VNode.id).Nodup ∧
    ∃ l₁ l₂, ["A", "B"] = l₁ ++ "B" :: l₂ ∧ "A" ∈ l₁ := by
  constructor
  · decide
  · have := C1_execution_order_respects_dependencies
      [{ id := "B", type := NodeKind.updateVariable,
         value := some "\x7b\x7bA.output.x\x7d\x7d" },
       { id := "A", type := NodeKind.updateVariable, value := some "hi" }]
      (by decide) ["A", "B"] (by decide)
    exact this.1 "A" "B" (by decide) (by decide) (by decide)

/-! ## Claim C7: the two operator evaluators -/
/-- C7 counterexample.  The claim asserts that the Update-Variable
`filter` evaluator applies the same numeric coercion as the Condition
evaluator for `greater_than`, so that the two agree on every
(operator, x, y).  At operator `greater_than`, x = `"5"` (a numeric
string), y = `3`, the Condition evaluator coerces and returns `true`
while the `filter` evaluator requires `typeof === "number"` operands and
returns `false` — the evaluators disagree. -/
theorem C7_counterexample :
    uvEvaluateCondition (.str "5") "greater_than" (.num (some 3)) = .ok false ∧
    condEvaluateCondition (.str "5") (some "greater_than") (.num (some 3)) = .ok true ∧
    uvEvaluateCondition (.str "5") "greater_than" (.num (some 3)) ≠
      condEvaluateCondition (.str "5") (some "greater_than") (.num (some 3)) := by
  refine ⟨rfl, rfl, ?_⟩
  intro h
  have hcontra : (Except.ok false : Except String Bool) = .ok true := by
    calc (Except.ok false : Except String Bool)
        = uvEvaluateCondition (.str "5") "greater_than" (.num (some 3)) := rfl
      _ = condEvaluateCondition (.str "5") (some "greater_than") (.num (some 3)) := h
      _ = .ok true := rfl
  exact Bool.noConfusion (Except.ok.inj hcontra)

/-- C7 (amended).  The two evaluators agree for `equals` / `not_equals` /
`contains` on every pair of operands, for unknown operators (both throw
the same error), and for `greater_than` / `less_than` whenever both
operands are already numbers (where the Condition evaluator's `Number(…)`
coercion is the identity, and a NaN operand yields false in both); the
Update-Variable `filter` evaluator does not coerce — it returns false
when an operand is not a number, so agreement does not extend to
coercible non-number operands. -/
theorem C7_amended_evaluators_agree (op : String) (x y : Value)
    (h : (op = "greater_than" ∨ op = "less_than") →
      (∃ a, x = Value.num a) ∧ (∃ b, y = Value.num b)) :
    uvEvaluateCondition x op y = condEvaluateCondition x (some op) y := by
  unfold uvEvaluateCondition condEvaluateCondition
  by_cases h1 : op = "equals"
  · simp [h1]
  · by_cases h2 : op = "not_equals"
    · simp [h1, h2]
    · by_cases h3 : op = "contains"
      · simp [h1, h2, h3]
      · by_cases h4 : op = "greater_than"
        · obtain ⟨⟨a, rfl⟩, ⟨b, rfl⟩⟩ := h (Or.inl h4)
          simp [h1, h2, h3, h4, jsToNumber]
        · by_cases h5 : op = "less_than"
          · obtain ⟨⟨a, rfl⟩, ⟨b, rfl⟩⟩ := h (Or.inr h5)
            simp [h1, h2, h3, h4, h5, jsToNumber]
          · simp [h1, h2, h3, h4, h5]

/-- Witness for the amended C7 at concrete number operands. -/
theorem C7_amended_witness :
    uvEvaluateCondition (.num (some 5)) "greater_than" (.num (some 3)) =
      condEvaluateCondition (.num (some 5)) (some "greater_than") (.num (some 3)) ∧
    uvEvaluateCondition (.num (some 5)) "greater_than" (.num (some 3)) = .ok true :=
  ⟨C7_amended_evaluators_agree "greater_than" (.num (some 5)) (.num (some 3))
    (fun _ => ⟨⟨some 5, rfl⟩, ⟨some 3, rfl⟩⟩), rfl⟩

theorem jsTruthy_false_not_objLike (v : Value) (h : jsTruthy v = false) :
    isObjLike v = false := by
  cases v <;> simp_all [jsTruthy, isObjLike]

/-- C5.  For every registry state and dotted expression,
`resolveExpression` behaves exactly as the claim describes: node output
over variable when the tail is empty, and recorded-output navigation
(with `undefined` for a missing output or an impossible step) when the
tail is non-empty. -/
theorem C5_resolveExpression_rule (reg : Registry) (expression : String) :
    reg.resolveExpression expression = claimC5Resolve reg expression := by
  unfold Registry.resolveExpression claimC5Resolve
  cases hs : splitDot expression with
  | nil => rfl
  | cons head tail =>
    cases tail with
    | nil => rfl
    | cons t ts =>
      simp only
      cases ho : aget? reg.outs head with
      | none =>
        have : reg.getNodeOutput head = .undef := by
          unfold Registry.getNodeOutput
          rw [ho]
          rfl
        rw [this]
        rfl
      | some recorded =>
        have hg : reg.getNodeOutput head = recorded := by
          unfold Registry.getNodeOutput
          rw [ho]
          rfl
        rw [hg]
        by_cases ht : jsTruthy recorded = true
        · rw [if_pos ht]
        · have ht' : jsTruthy recorded = false := by
            cases h : jsTruthy recorded
            · rfl
            · exact absurd h ht
          rw [if_neg (by simp [ht'])]
          unfold navigate
          rw [jsTruthy_false_not_objLike recorded ht']
          simp

/-! ## Claim C9: `setVariable` on `file`-typed variables -/
/-- C9 counterexample.  The claim says `setVariable` with a string that
does not identify a known file entry attempts to register it as a
filesystem path and stores the returned handle id.  With a declared
`file` variable `v`, an empty file registry, and a filesystem on which
`doc.pdf` exists (so registration would succeed), `setVariable` instead
throws `File ID … not found in registry` without attempting
registration — the registration path exists only in input seeding. -/
theorem C9_counterexample :
    let reg : Registry :=
      { variableTypes := [("v", some VarType.file)], fm := { fsPaths := ["doc.pdf"] } }
    Registry.setVariable reg "v" (.str "doc.pdf") =
      .error "File ID 'doc.pdf' not found in registry for variable 'v'" ∧
    reg.fm.registerFile "doc.pdf" =
      .ok ("file-0", { files := [("file-0", "doc.pdf")], fsPaths := ["doc.pdf"], nextId := 1 }) := by
  exact ⟨rfl, rfl⟩

theorem aget?_aset_self {α : Type} (l : List (String × α)) (k : String) (v : α) :
    aget? (aset l k v) k = some v := by
  induction l with
  | nil => simp [aset, aget?, List.find?]
  | cons p rest ih =>
    by_cases h : p.1 = k
    · simp [aset, h, aget?, List.find?]
    · simp only [aset]
      rw [if_neg h]
      simp only [aget?, List.find?] at ih ⊢
      rw [show (decide (p.1 = k)) = false by simp [h]]
      exact ih

/-- C9 (amended).  For a declared `file` variable and a string value that
is not a known file id, `setVariable` fails with the descriptive
`File ID … not found` error and never attempts registration;
path-registration is performed only when seeding caller-supplied input
variables (`setInputVariables`), which stores the returned handle id and,
when registration fails, throws `Failed to register file …`. -/
theorem C9_amended_setVariable_file (reg : Registry) (id s : String)
    (htype : aget? reg.variableTypes id = some (some VarType.file))
    (hnot : reg.fm.hasFile s = false) :
    reg.setVariable id (.str s) =
      .error ("File ID '" ++ s ++ "' not found in registry for variable '" ++ id ++ "'") ∧
    (s ∈ reg.fm.fsPaths →
      ∃ reg', reg.setInputVariables [(id, .str s)] = .ok reg' ∧
        aget? reg'.vars id = some (.str ("file-" ++ toString reg.fm.nextId)) ∧
        reg'.fm.hasFile ("file-" ++ toString reg.fm.nextId) = true) ∧
    (s ∉ reg.fm.fsPaths →
      reg.setInputVariables [(id, .str s)] =
        .error ("Failed to register file for variable '" ++ id ++ "': File not found: " ++ s)) := by
  refine ⟨?_, ?_, ?_⟩
  · unfold Registry.setVariable Registry.validateVariableType
    rw [htype]
    unfold FileManagerState.validateFileVariable
    simp [hnot]
  · intro hfs
    have hval : ∀ fm' : FileManagerState,
        fm'.hasFile ("file-" ++ toString reg.fm.nextId) = true →
        Registry.validateVariableType { reg with fm := fm' } id
          (.str ("file-" ++ toString reg.fm.nextId)) = .ok () := by
      intro fm' hhas
      unfold Registry.validateVariableType
      have h1 : aget? (Registry.variableTypes { reg with fm := fm' }) id =
          some (some VarType.file) := htype
      rw [h1]
      unfold FileManagerState.validateFileVariable
      simp [hhas]
    unfold Registry.setInputVariables FileManagerState.registerFile
    rw [htype]
    simp only [hnot, Bool.false_eq_true, if_false, if_pos hfs]
    rw [hval _ (by unfold FileManagerState.hasFile; simp [aget?_aset_self])]
    refine ⟨_, rfl, ?_, ?_⟩
    · simp [aget?_aset_self]
    · unfold FileManagerState.hasFile
      simp [aget?_aset_self]
  · intro hfs
    unfold Registry.setInputVariables
    rw [htype]
    simp only [hnot, Bool.false_eq_true, if_false]
    unfold FileManagerState.registerFile
    rw [if_neg hfs]
    simp only [String.append_assoc]
    rw [← String.append_assoc "': " "File not found: " s]
    rfl

/-- Witness for the amended C9 at a concrete registry. -/
theorem C9_amended_witness :
    let reg : Registry :=
      { variableTypes := [("v", some VarType.file)], fm := { fsPaths := ["doc.pdf"] } }
    reg.setVariable "v" (.str "doc.pdf") =
      .error ("File ID '" ++ "doc.pdf" ++ "' not found in registry for variable '" ++ "v" ++ "'") ∧
    (∃ reg', reg.setInputVariables [("v", .str "doc.pdf")] = .ok reg' ∧
      aget? reg'.vars "v" = some (.str ("file-" ++ toString reg.fm.nextId)) ∧
      reg'.fm.hasFile ("file-" ++ toString reg.fm.nextId) = true) := by
  intro reg
  have h := C9_amended_setVariable_file reg "v" "doc.pdf" rfl rfl
  exact ⟨h.1, h.2.1 (by simp [reg])⟩

theorem mem_insertUnique (l : List String) (y x : String) :
    x ∈ insertUnique l y ↔ x ∈ l ∨ x = y := by
  unfold insertUnique
  by_cases hy : y ∈ l
  · simp only [hy, if_pos]
    constructor
    · exact Or.inl
    · rintro (h | rfl)
      · exact h
      · exact hy
  · simp [hy]

theorem mem_foldl_insertUnique (P : VariableReference → Prop) [DecidablePred P] :
    ∀ (refs : List VariableReference) (acc : List String) (x : String),
      (x ∈ refs.foldl (fun acc r => if P r then insertUnique acc r.nodeId else acc) acc ↔
        x ∈ acc ∨ ∃ r ∈ refs, P r ∧ r.nodeId = x) := by
  intro refs
  induction refs with
  | nil => simp
  | cons r rest ih =>
    intro acc x
    simp only [List.foldl_cons]
    by_cases hr : P r
    · rw [if_pos hr, ih, mem_insertUnique]
      constructor
      · rintro (⟨h | rfl⟩ | ⟨r', hr', hP, hx⟩)
        · exact Or.inl h
        · exact Or.inr ⟨r, by simp, hr, rfl⟩
        · exact Or.inr ⟨r', by simp [hr'], hP, hx⟩
      · rintro (h | ⟨r', hr', hP, hx⟩)
        · exact Or.inl (Or.inl h)
        · rcases List.mem_cons.mp hr' with rfl | hr''
          · exact Or.inl (Or.inr hx.symm)
          · exact Or.inr ⟨r', hr'', hP, hx⟩
    · rw [if_neg hr, ih]
      constructor
      · rintro (h | ⟨r', hr', hP, hx⟩)
        · exact Or.inl h
        · exact Or.inr ⟨r', by simp [hr'], hP, hx⟩
      · rintro (h | ⟨r', hr', hP, hx⟩)
        · exact Or.inl h
        · rcases List.mem_cons.mp hr' with rfl | hr''
          · exact absurd hP hr
          · exact Or.inr ⟨r', hr'', hP, hx⟩

theorem mem_nodeDeps (n : VNode) (x : String) :
    x ∈ nodeDeps n ↔
      ∃ r ∈ extractNodeReferences n,
        (r.path ≠ "" ∧ jsStartsWith r.path "output") ∧ r.nodeId = x := by
  unfold nodeDeps
  rw [mem_foldl_insertUnique (fun r => r.path ≠ "" ∧ jsStartsWith r.path "output")]
  simp

theorem depsOf_buildDependencyGraph (nodes : List VNode)
    (hnd : (nodes.map VNode.id).Nodup) (B : VNode) (hB : B ∈ nodes) :
    depsOf (buildDependencyGraph nodes) B.id = nodeDeps B := by
  induction nodes with
  | nil => cases hB
  | cons n rest ih =>
    rcases List.mem_cons.mp hB with rfl | hB'
    · unfold depsOf buildDependencyGraph
      simp [List.find?]
    · have hne : n.id ≠ B.id := by
        intro h
        have : B.id ∈ rest.map VNode.id := List.mem_map.mpr ⟨B, hB', rfl⟩
        rw [← h] at this
        exact (List.nodup_cons.mp (by simpa using hnd)).1 this
      unfold depsOf buildDependencyGraph at ih ⊢
      simp only [List.map_cons, List.find?]
      rw [show (decide ((n.id, nodeDeps n).1 = B.id)) = false by simp [hne]]
      exact ih (by simpa using (List.nodup_cons.mp (by simpa using hnd)).2) hB'

theorem extractNodeReferences_update_some (B : VNode)
    (hB : B.type = NodeKind.updateVariable) (v : String) (hv : B.value = some v)
    (hve : v ≠ "") : extractNodeReferences B = extractFromText v := by
  unfold extractNodeReferences
  rw [hB, hv]
  simp [hve]

theorem extractNodeReferences_update_empty (B : VNode)
    (hB : B.type = NodeKind.updateVariable)
    (hv : B.value = none ∨ B.value = some "") : extractNodeReferences B = [] := by
  unfold extractNodeReferences
  rw [hB]
  rcases hv with hv | hv <;> (rw [hv]; try simp)

theorem extractNodeReferences_llm (B : VNode) (hB : B.type = NodeKind.llm) :
    extractNodeReferences B = B.messages.flatMap (fun m =>
      (if truthyStr m.text then extractFromText (m.text.getD "") else []) ++
      (if truthyStr m.image_url then extractFromText (m.image_url.getD "") else []) ++
      (if truthyStr m.image_path then extractFromText (m.image_path.getD "") else [])) := by
  unfold extractNodeReferences
  rw [hB]

theorem extractNodeReferences_other (B : VNode)
    (h1 : B.type ≠ NodeKind.updateVariable) (h2 : B.type ≠ NodeKind.llm) :
    extractNodeReferences B = [] := by
  cases hbt : B.type
  case updateVariable => exact absurd hbt h1
  case llm => exact absurd hbt h2
  all_goals (unfold extractNodeReferences; rw [hbt])

/-- C2 counterexample.  The claim asserts the edge exists for a reference
`\x7b\x7bA.output\x7d\x7d` in B's payload *regardless of B's node kind*.
With B a `CONDITION` node whose `switch_value` carries exactly such a
token, B's payload contains the reference but the dependency graph
records no dependency for B (the validator's `extractNodeReferences`
has no case for `CONDITION`). -/
theorem C2_counterexample :
    let A : VNode := { id := "A", type := NodeKind.updateVariable, value := some "x" }
    let B : VNode :=
      { id := "B", type := NodeKind.condition,
        otherPayload := ["\x7b\x7bA.output\x7d\x7d"] }
    (∃ r ∈ payloadRefs B, r.nodeId = "A" ∧ r.path ≠ "" ∧ jsStartsWith r.path "output") ∧
    depsOf (buildDependencyGraph [A, B]) "B" = [] ∧
    ¬("A" ∈ depsOf (buildDependencyGraph [A, B]) "B" ↔
      ∃ r ∈ payloadRefs B, r.nodeId = "A" ∧ r.path ≠ "" ∧ jsStartsWith r.path "output") := by
  intro A B
  have hrefs : payloadRefs B = [⟨"A", "output", "\x7b\x7bA.output\x7d\x7d"⟩] := rfl
  have hmem : (⟨"A", "output", "\x7b\x7bA.output\x7d\x7d"⟩ : VariableReference) ∈
      payloadRefs B := by
    rw [hrefs]
    exact List.mem_singleton.mpr rfl
  have hdeps : depsOf (buildDependencyGraph [A, B]) "B" = [] := rfl
  refine ⟨⟨_, hmem, rfl, by decide, rfl⟩, hdeps, ?_⟩
  intro h
  have := h.mpr ⟨_, hmem, rfl, by decide, rfl⟩
  rw [hdeps] at this
  simp at this

/-- C2 (amended).  For a validated flow (distinct node ids) and any node
B of the flow, the dependency graph records an edge A→B exactly when B is
an `UPDATE_VARIABLE` node whose `value`, or an `LLM` node one of whose
messages' `text`/`image_url`/`image_path` fields, contains a reference
token with head A and a nonempty dotted tail starting with `output`;
payload references of every other node kind (Condition, For-Each, vector,
embedding, document-splitter) create no edges. -/
theorem C2_amended_edge_characterization (nodes : List VNode)
    (hnd : (nodes.map VNode.id).Nodup) (B : VNode) (hB : B ∈ nodes) (A : String) :
    A ∈ depsOf (buildDependencyGraph nodes) B.id ↔ claimC2AmendedEdge A B := by
  rw [depsOf_buildDependencyGraph nodes hnd B hB, mem_nodeDeps]
  unfold claimC2AmendedEdge
  by_cases htype : B.type = NodeKind.updateVariable
  · cases hv : B.value with
    | none =>
      rw [extractNodeReferences_update_empty B htype (Or.inl hv)]
      constructor
      · rintro ⟨r, hr, _⟩
        cases hr
      · rintro (⟨_, v, hv', _⟩ | ⟨hllm, _⟩)
        · cases hv'
        · rw [htype] at hllm
          cases hllm
    | some v =>
      by_cases hve : v = ""
      · subst hve
        rw [extractNodeReferences_update_empty B htype (Or.inr hv)]
        constructor
        · rintro ⟨r, hr, _⟩
          cases hr
        · rintro (⟨_, v', hv', hve', _⟩ | ⟨hllm, _⟩)
          · exact absurd (Option.some.inj hv').symm hve'
          · rw [htype] at hllm
            cases hllm
      · rw [extractNodeReferences_update_some B htype v hv hve]
        constructor
        · rintro ⟨r, hr, hP, hx⟩
          exact Or.inl ⟨htype, v, rfl, hve, r, hr, hP, hx⟩
        · rintro (⟨_, v', hv', hve', r, hr, hP, hx⟩ | ⟨hllm, _⟩)
          · cases Option.some.inj hv'
            exact ⟨r, hr, hP, hx⟩
          · rw [htype] at hllm
            cases hllm
  · by_cases hllm : B.type = NodeKind.llm
    · rw [extractNodeReferences_llm B hllm]
      constructor
      · rintro ⟨r, hr, hP, hx⟩
        rw [List.mem_flatMap] at hr
        obtain ⟨m, hm, hrm⟩ := hr
        refine Or.inr ⟨hllm, m, hm, ?_⟩
        rcases List.mem_append.mp hrm with hrm | hrm
        · rcases List.mem_append.mp hrm with hrm | hrm
          · by_cases ht : truthyStr m.text
            · rw [if_pos ht] at hrm
              cases htx : m.text with
              | none => rw [htx] at ht; cases ht
              | some s =>
                refine ⟨s, Or.inl ⟨rfl, ?_⟩, r, ?_, hP, hx⟩
                · rw [htx] at ht
                  simpa [truthyStr] using ht
                · rw [htx] at hrm
                  simpa using hrm
            · rw [if_neg ht] at hrm
              cases hrm
          · by_cases ht : truthyStr m.image_url
            · rw [if_pos ht] at hrm
              cases htx : m.image_url with
              | none => rw [htx] at ht; cases ht
              | some s =>
                refine ⟨s, Or.inr (Or.inl ⟨rfl, ?_⟩), r, ?_, hP, hx⟩
                · rw [htx] at ht
                  simpa [truthyStr] using ht
                · rw [htx] at hrm
                  simpa using hrm
            · rw [if_neg ht] at hrm
              cases hrm
        · by_cases ht : truthyStr m.image_path
          · rw [if_pos ht] at hrm
            cases htx : m.image_path with
            | none => rw [htx] at ht; cases ht
            | some s =>
              refine ⟨s, Or.inr (Or.inr ⟨rfl, ?_⟩), r, ?_, hP, hx⟩
              · rw [htx] at ht
                simpa [truthyStr] using ht
              · rw [htx] at hrm
                simpa using hrm
          · rw [if_neg ht] at hrm
            cases hrm
      · rintro (⟨hup, _⟩ | ⟨_, m, hm, s, hfield, r, hr, hP, hx⟩)
        · exact absurd hup htype
        · refine ⟨r, ?_, hP, hx⟩
          rw [List.mem_flatMap]
          refine ⟨m, hm, ?_⟩
          rcases hfield with ⟨hs, hse⟩ | ⟨hs, hse⟩ | ⟨hs, hse⟩
          · apply List.mem_append_left
            apply List.mem_append_left
            rw [if_pos (by simp [truthyStr, hs, hse])]
            rw [hs]
            simpa using hr
          · apply List.mem_append_left
            apply List.mem_append_right
            rw [if_pos (by simp [truthyStr, hs, hse])]
            rw [hs]
            simpa using hr
          · apply List.mem_append_right
            rw [if_pos (by simp [truthyStr, hs, hse])]
            rw [hs]
            simpa using hr
    · rw [extractNodeReferences_other B htype hllm]
      constructor
      · rintro ⟨r, hr, _⟩
        cases hr
      · rintro (⟨h, _⟩ | ⟨h, _⟩)
        · exact absurd h htype
        · exact absurd h hllm

/-- Witness for the amended C2: an `UPDATE_VARIABLE` consumer has the
edge, and a `CONDITION` consumer carrying the same token has none. -/
theorem C2_amended_witness :
    ("A" ∈ depsOf (buildDependencyGraph
      [{ id := "A", type := NodeKind.updateVariable, value := some "x" },
       { id := "B", type := NodeKind.updateVariable,
         value := some "\x7b\x7bA.output.t\x7d\x7d" }]) "B") ∧
    ¬("A" ∈ depsOf (buildDependencyGraph
      [{ id := "A", type := NodeKind.updateVariable, value := some "x" },
       { id := "B", type := NodeKind.condition,
         otherPayload := ["\x7b\x7bA.output.t\x7d\x7d"] }]) "B") := by
  constructor
  · exact (C2_amended_edge_characterization
      [{ id := "A", type := NodeKind.updateVariable, value := some "x" },
       { id := "B", type := NodeKind.updateVariable,
         value := some "\x7b\x7bA.output.t\x7d\x7d" }]
      (by decide)
      { id := "B", type := NodeKind.updateVariable,
        value := some "\x7b\x7bA.output.t\x7d\x7d" }
      (by decide) "A").mpr
      (Or.inl ⟨rfl, "\x7b\x7bA.output.t\x7d\x7d", rfl, by decide,
        ⟨"A", "output.t", "\x7b\x7bA.output.t\x7d\x7d"⟩, by decide,
        ⟨by decide, by decide⟩, rfl⟩)
  · intro hA
    have h := (C2_amended_edge_characterization
      [{ id := "A", type := NodeKind.updateVariable, value := some "x" },
       { id := "B", type := NodeKind.condition,
         otherPayload := ["\x7b\x7bA.output.t\x7d\x7d"] }]
      (by decide)
      { id := "B", type := NodeKind.condition,
        otherPayload := ["\x7b\x7bA.output.t\x7d\x7d"] }
      (by decide) "A").mp hA
    rcases h with ⟨h, _⟩ | ⟨h, _⟩ <;> cases h

theorem condEvaluateCondition_known (op : String) (hop : knownOp op = true)
    (sv val : Value) :
    condEvaluateCondition sv (some op) val = .ok (specOperatorEval op sv val) := by
  unfold condEvaluateCondition specOperatorEval
  unfold knownOp at hop
  by_cases h1 : op = "equals"
  · simp [h1]
  · by_cases h2 : op = "not_equals"
    · simp [h1, h2]
    · by_cases h3 : op = "greater_than"
      · simp [h1, h2, h3]
      · by_cases h4 : op = "less_than"
        · simp [h1, h2, h3, h4]
        · by_cases h5 : op = "contains"
          · simp [h1, h2, h3, h4, h5]
          · simp [h1, h2, h3, h4, h5] at hop

theorem findLoop_eq (sv : Value) (branches : List CBranch)
    (hops : ∀ b ∈ branches, b.name ≠ "default" →
      ∃ op, b.condition = some op ∧ knownOp op = true) :
    findLoop sv branches =
      .ok (branches.find? (fun b => decide (b.name ≠ "default") && specBranchFires sv b)) := by
  induction branches with
  | nil => rfl
  | cons b rest ih =>
    by_cases hd : b.name = "default"
    · unfold findLoop
      rw [if_pos hd]
      rw [ih (fun b' hb' => hops b' (List.mem_cons_of_mem _ hb'))]
      rw [List.find?]
      rw [show (decide (b.name ≠ "default") && specBranchFires sv b) = false by simp [hd]]
    · obtain ⟨op, hcond, hknown⟩ := hops b (by simp) hd
      unfold findLoop
      rw [if_neg hd, hcond, condEvaluateCondition_known op hknown]
      rw [List.find?]
      have hfires : specBranchFires sv b = specOperatorEval op sv b.value := by
        unfold specBranchFires
        rw [hcond]
      cases hf : specOperatorEval op sv b.value with
      | true =>
        rw [show (decide (b.name ≠ "default") && specBranchFires sv b) = true by
          simp [hd, hfires, hf]]
      | false =>
        rw [show (decide (b.name ≠ "default") && specBranchFires sv b) = false by
          simp [hfires, hf]]
        simp only [hf]
        exact ih (fun b' hb' => hops b' (List.mem_cons_of_mem _ hb'))

theorem findMatchingBranch_eq (sv : Value) (branches : List CBranch)
    (hops : ∀ b ∈ branches, b.name ≠ "default" →
      ∃ op, b.condition = some op ∧ knownOp op = true) :
    findMatchingBranch sv branches = .ok (specFiringBranch sv branches) := by
  unfold findMatchingBranch specFiringBranch
  rw [findLoop_eq sv branches hops]
  cases branches.find? (fun b => decide (b.name ≠ "default") && specBranchFires sv b) <;> rfl

/-- C8.  For every Condition node whose non-default branches carry one of
the defined operators, and every resolved switch value: the branch that
fires is the first branch in declaration order, skipping the reserved
`default`, whose (operator, value) pair evaluates true; when none
matches, the `default` branch fires if present; the node's output is
`{matched_branch, results}` with the fired branch's name and its
children's result records, and `{matched_branch: null, results: []}` when
no branch fires. -/
theorem C8_condition_branch_selection (fuel : Nat) (nid svExpr : String)
    (branches : List CBranch) (view : View)
    (hops : ∀ b ∈ branches, b.name ≠ "default" →
      ∃ op, b.condition = some op ∧ knownOp op = true) :
    execNode (fuel + 1) (.condNode nid svExpr branches) view =
      match specFiringBranch (resolveValueExpression view svExpr) branches with
      | some b =>
        (.ok (.obj [("matched_branch", .str b.name),
                    ("results", .arr (runBranchNodes (execNode fuel) b.nodes view).1)]),
         (runBranchNodes (execNode fuel) b.nodes view).2)
      | none =>
        (.ok (.obj [("matched_branch", .null), ("results", .arr [])]), view) := by
  have h := findMatchingBranch_eq (resolveValueExpression view svExpr) branches hops
  rw [show execNode (fuel + 1) (.condNode nid svExpr branches) view =
      (match findMatchingBranch (resolveValueExpression view svExpr) branches with
       | .error e => (.error e, view)
       | .ok none =>
         (.ok (.obj [("matched_branch", .null), ("results", .arr [])]), view)
       | .ok (some b) =>
         match runBranchNodes (execNode fuel) b.nodes view with
         | (results, view') =>
           (.ok (.obj [("matched_branch", .str b.name), ("results", .arr results)]),
            view')) from rfl]
  rw [h]
  cases specFiringBranch (resolveValueExpression view svExpr) branches <;> rfl

/-- Witness for C8: the conditional-scoring scenario — switch value 95
against branches `excellent` (greater_than 90), `good` (greater_than 70)
and `default` fires `excellent`. -/
theorem C8_witness :
    execNode 1 (.condNode "score" "\x7b\x7buser_score\x7d\x7d"
      [⟨"excellent", some "greater_than", .num (some 90), []⟩,
       ⟨"good", some "greater_than", .num (some 70), []⟩,
       ⟨"default", none, .undef, []⟩])
      ⟨{ vars := [("user_score", .num (some 95))] }, []⟩ =
      (.ok (.obj [("matched_branch", .str "excellent"), ("results", .arr [])]),
       ⟨{ vars := [("user_score", .num (some 95))] }, []⟩) := by
  have h := C8_condition_branch_selection 0 "score" "\x7b\x7buser_score\x7d\x7d"
    [⟨"excellent", some "greater_than", .num (some 90), []⟩,
     ⟨"good", some "greater_than", .num (some 70), []⟩,
     ⟨"default", none, .undef, []⟩]
    ⟨{ vars := [("user_score", .num (some 95))] }, []⟩
    (by
      intro b hb hnd
      rcases hb with _ | ⟨_, hb⟩
      · exact ⟨"greater_than", rfl, rfl⟩
      · rcases hb with _ | ⟨_, hb⟩
        · exact ⟨"greater_than", rfl, rfl⟩
        · rcases hb with _ | ⟨_, hb⟩
          · exact absurd rfl hnd
          · cases hb)
  exact h.trans (by rfl)

theorem drop_takeWhile_length (p : Char → Bool) :
    ∀ l : List Char, l.drop (l.takeWhile p).length = l.dropWhile p := by
  intro l
  induction l with
  | nil => rfl
  | cons a t ih =>
    by_cases h : p a
    · simpa [List.takeWhile_cons, List.dropWhile_cons, h] using ih
    · simp [List.takeWhile_cons, List.dropWhile_cons, h]

theorem startsWithClose_eq {l : List Char} (h : startsWithClose l = true) :
    l = '}' :: '}' :: l.drop 2 := by
  have ht : l.take 2 = ['}', '}'] := of_decide_eq_true h
  calc l = l.take 2 ++ l.drop 2 := (List.take_append_drop 2 l).symm
    _ = '}' :: '}' :: l.drop 2 := by rw [ht]; rfl

theorem take_takeWhile_length (p : Char → Bool) :
    ∀ l : List Char, l.take (l.takeWhile p).length = l.takeWhile p := by
  intro l
  induction l with
  | nil => rfl
  | cons a t ih =>
    by_cases h : p a
    · simp [List.takeWhile_cons, h, List.take_succ_cons, ih]
    · simp [List.takeWhile_cons, h]

theorem joinRaw_tokenSegs :
    ∀ (fuel : Nat) (cs : List Char), cs.length ≤ fuel →
      joinRaw (tokenSegs fuel cs) = cs := by
  intro fuel
  induction fuel with
  | zero =>
    intro cs h
    have : cs = [] := List.eq_nil_of_length_eq_zero (by omega)
    subst this
    rfl
  | succ fuel ih =>
    intro cs h
    cases cs with
    | nil => rfl
    | cons c cs' =>
      simp only [tokenSegs]
      simp only [List.length_cons] at h
      by_cases hc : c = '{' ∧ cs'.head? = some '{' ∧
          cs'.tail.takeWhile (· ≠ '}') ≠ [] ∧
          startsWithClose (cs'.tail.drop (cs'.tail.takeWhile (· ≠ '}')).length)
      · rw [if_pos hc]
        obtain ⟨hcurl, hhead, -, hclose⟩ := hc
        subst hcurl
        have hcs' : cs' = '{' :: cs'.tail := by
          cases cs' with
          | nil => exact absurd hhead (by simp)
          | cons a t => simp_all
        have htl : cs'.tail.length ≤ cs'.length := by
          cases cs' <;> simp
        have hdrop := startsWithClose_eq hclose
        rw [List.drop_drop] at hdrop
        have hsplit : cs'.tail =
            cs'.tail.takeWhile (· ≠ '}') ++
              ('}' :: '}' ::
                cs'.tail.drop ((cs'.tail.takeWhile (· ≠ '}')).length + 2)) := by
          conv_lhs => rw [← List.take_append_drop
            ((cs'.tail.takeWhile (· ≠ '}')).length) cs'.tail]
          rw [take_takeWhile_length]
          congr 1
        show segRaw (.ref _ _) ++
            joinRaw (tokenSegs fuel
              (cs'.tail.drop ((cs'.tail.takeWhile (· ≠ '}')).length + 2))) =
          '{' :: cs'
        rw [ih _ (by
          simp only [List.length_drop]
          omega)]
        rw [segRaw]
        conv_rhs => rw [hcs', hsplit]
        simp
      · rw [if_neg hc]
        show segRaw (.lit c) ++ joinRaw (tokenSegs fuel cs') = c :: cs'
        rw [ih cs' (by omega), segRaw]
        rfl

theorem replaceAux_eq_renderSegs (resolve : String → Value) :
    ∀ (fuel : Nat) (cs : List Char),
      replaceAux resolve fuel cs = renderSegs resolve (tokenSegs fuel cs) := by
  intro fuel
  induction fuel with
  | zero => intro cs; rfl
  | succ fuel ih =>
    intro cs
    cases cs with
    | nil => rfl
    | cons c cs' =>
      simp only [replaceAux, tokenSegs]
      by_cases hc : c = '{' ∧ cs'.head? = some '{' ∧
          cs'.tail.takeWhile (· ≠ '}') ≠ [] ∧
          startsWithClose (cs'.tail.drop (cs'.tail.takeWhile (· ≠ '}')).length)
      · rw [if_pos hc, if_pos hc]
        show _ ++ replaceAux resolve fuel _ =
          renderSeg resolve (.ref _ _) ++ renderSegs resolve (tokenSegs fuel _)
        rw [ih, renderSeg]
      · rw [if_neg hc, if_neg hc]
        show c :: replaceAux resolve fuel cs' =
          renderSeg resolve (.lit c) ++ renderSegs resolve (tokenSegs fuel cs')
        rw [ih, renderSeg]
        rfl

/-- **C4** — `BaseNode.resolveValueExpression` in both modes: (1) when the
whole string matches the anchored pattern `^\x7b\x7bexpr\x7d\x7d$`, the
resolver returns `resolveExpression(expr.trim())` unchanged, preserving the
underlying `Value` (object, array, number); (2) otherwise it returns a
string: the input decomposes into literal characters and reference tokens
(`tokenSegs`, shown faithful by `joinRaw`), every token whose trimmed
expression resolves to a defined value is replaced by the `String(…)` form
of that value, and every token resolving to `undefined` is kept in place as
the original literal token (never the empty string, never `"undefined"`),
exactly the renderings enumerated by `renderSeg`. -/
theorem C4_single_ref_and_template (view : View) (v : String) :
    (∀ e, singleRefMatch v = some e →
        resolveValueExpression view v = viewResolveExpression view (jsTrim e)) ∧
    (singleRefMatch v = none →
        resolveValueExpression view v =
          .str ⟨renderSegs (viewResolveExpression view)
            (tokenSegs v.data.length v.data)⟩ ∧
        joinRaw (tokenSegs v.data.length v.data) = v.data) := by
  constructor
  · intro e he
    simp only [resolveValueExpression, he]
  · intro hnone
    refine ⟨?_, joinRaw_tokenSegs _ _ (Nat.le_refl _)⟩
    simp only [resolveValueExpression, hnone, resolveVariables]
    rw [replaceAux_eq_renderSegs]

/-- Witness for C4: with variables `x = 7` and `o = \x7bk: 1\x7d`, the
single-reference string returns the object itself, and the template string
substitutes the defined `x` while keeping the unresolvable token
literally. -/
theorem C4_witness :
    resolveValueExpression
      ⟨{ vars := [("x", .num (some 7)), ("o", .obj [("k", .num (some 1))])] },
        []⟩ "\x7b\x7bo\x7d\x7d" = .obj [("k", .num (some 1))] ∧
    resolveValueExpression
      ⟨{ vars := [("x", .num (some 7)), ("o", .obj [("k", .num (some 1))])] },
        []⟩ "a \x7b\x7bx\x7d\x7d b \x7b\x7bnope\x7d\x7d" =
      .str "a 7 b \x7b\x7bnope\x7d\x7d" := by
  constructor
  · exact ((C4_single_ref_and_template
      ⟨{ vars := [("x", .num (some 7)), ("o", .obj [("k", .num (some 1))])] },
        []⟩ "\x7b\x7bo\x7d\x7d").1 "o" rfl).trans (by rfl)
  · exact (((C4_single_ref_and_template
      ⟨{ vars := [("x", .num (some 7)), ("o", .obj [("k", .num (some 1))])] },
        []⟩ "a \x7b\x7bx\x7d\x7d b \x7b\x7bnope\x7d\x7d").2 rfl).1).trans
      (by rfl)

/-- **C3 counterexample.**  The claim asserts that within a For-Each body a
`\x7b\x7bsibling.output.…\x7d\x7d` reference always resolves to the output
the sibling produced in the *current* iteration and never to a previous
iteration's output.  Running `c3F`: in iteration 0 (item `"a"`), `A` runs
before `B`, so `B.output.tag` resolves to `undefined`; in iteration 1
(item `"b"`), the same reference resolves to `"0"` — the output `B`
produced in iteration 0, found through the fall-through to the parent
registry, while `B`'s iteration-1 output is `"1"`.  The first conjunct is
the For-Each node's complete output (iteration 1's `A` entry shows
`resolved_input = "0"` next to the same iteration's `B` entry with
`output.tag = "1"`); the second is the final value of `capture`; the third
separates the two tags. -/
theorem C3_counterexample :
    (execNode 2 c3F ⟨c3Reg, []⟩).1 = .ok (.obj
      [("total_items", .num (some 2)),
       ("processed_items", .num (some 2)),
       ("results", .arr
         [.obj
           [("item", .str "a"), ("index", .num (some 0)),
            ("results", .arr
              [.obj
                [("nodeId", .str "A"), ("nodeType", .str "UPDATE_VARIABLE"),
                 ("result", .obj
                   [("variable_id", .str "capture"),
                    ("previous_value", .undef),
                    ("new_value", .undef),
                    ("operation", .str "update"),
                    ("resolved_input", .undef)]),
                 ("success", .bool true), ("error", .undef)],
               .obj
                [("nodeId", .str "B"), ("nodeType", .str "LLM"),
                 ("result", .obj [("output", .obj [("tag", .str "0")])]),
                 ("success", .bool true), ("error", .undef)]])],
          .obj
           [("item", .str "b"), ("index", .num (some 1)),
            ("results", .arr
              [.obj
                [("nodeId", .str "A"), ("nodeType", .str "UPDATE_VARIABLE"),
                 ("result", .obj
                   [("variable_id", .str "capture"),
                    ("previous_value", .undef),
                    ("new_value", .str "0"),
                    ("operation", .str "update"),
                    ("resolved_input", .str "0")]),
                 ("success", .bool true), ("error", .undef)],
               .obj
                [("nodeId", .str "B"), ("nodeType", .str "LLM"),
                 ("result", .obj [("output", .obj [("tag", .str "1")])]),
                 ("success", .bool true), ("error", .undef)]])]])]) ∧
    aget? (execNode 2 c3F ⟨c3Reg, []⟩).2.base.vars "capture" = some (.str "0") ∧
    Value.str "0" ≠ Value.str "1" := by
  refine ⟨rfl, rfl, ?_⟩
  intro h
  exact absurd (Value.str.inj h) (by decide)

/-- C3 (amended): what scoped resolution of a multi-part expression
actually does (`createScopedRegistry`'s `resolveExpression` fallback
chain).  For a dotted expression whose head is neither the loop key nor
its `_index` companion, resolution is node-output navigation through the
scoped store: *if* the head has an entry in the current iteration's local
store (the sibling already ran in this iteration), that — current-
iteration — output is navigated; otherwise the lookup falls through to
the enclosing scopes and finally the parent registry, which still holds
the output the sibling produced in a *previous* iteration (or `undefined`
before any run).  The claim's "never to an output produced in a previous
iteration" fails exactly in the fall-through case; `C3_counterexample`
runs it end to end. -/
theorem C3_amended_scoped_resolution (base : Registry) (s : Scope)
    (rest : List Scope) (expr sib : String) (tail : List String)
    (hsplit : splitDot expr = sib :: tail) (htail : tail ≠ [])
    (hk : sib ≠ s.eachKey) (hki : sib ≠ s.eachKey ++ "_index") :
    scopesResolveExpression base (s :: rest) expr =
      match aget? s.localOuts sib with
      | some v => if jsTruthy v then navigate v tail else .undef
      | none =>
        if jsTruthy (scopesGetNodeOutput base rest sib) then
          navigate (scopesGetNodeOutput base rest sib) tail
        else .undef := by
  have hlen : (splitDot expr).length > 1 := by
    rw [hsplit]
    simp only [List.length_cons]
    have : tail.length > 0 := List.length_pos.mpr htail
    omega
  simp only [scopesResolveExpression, hsplit, List.headD]
  rw [if_neg hk, if_neg hki, if_pos (by rw [hsplit] at hlen; simpa using hlen)]
  simp only [scopesGetNodeOutput, List.drop_one, List.tail_cons]
  cases haux : aget? s.localOuts sib <;> rfl

/-- Witness for the amended C3: with the parent registry holding `B ↦
\x7boutput: "prev"\x7d`, the reference `B.output` resolves to `"cur"` when
the iteration-local store has an entry for `B`, and falls back to
`"prev"` when it does not. -/
theorem C3_amended_witness :
    scopesResolveExpression { outs := [("B", .obj [("output", .str "prev")])] }
      [{ eachKey := "i", currentItem := .str "a", index := 1,
         localOuts := [("B", .obj [("output", .str "cur")])] }]
      "B.output" = .str "cur" ∧
    scopesResolveExpression { outs := [("B", .obj [("output", .str "prev")])] }
      [{ eachKey := "i", currentItem := .str "a", index := 1 }]
      "B.output" = .str "prev" := by
  constructor
  · exact (C3_amended_scoped_resolution
      { outs := [("B", .obj [("output", .str "prev")])] }
      { eachKey := "i", currentItem := .str "a", index := 1,
        localOuts := [("B", .obj [("output", .str "cur")])] }
      [] "B.output" "B" ["output"] rfl (by decide) (by decide)
      (by decide)).trans (by rfl)
  · exact (C3_amended_scoped_resolution
      { outs := [("B", .obj [("output", .str "prev")])] }
      { eachKey := "i", currentItem := .str "a", index := 1 }
      [] "B.output" "B" ["output"] rfl (by decide) (by decide)
      (by decide)).trans (by rfl)

/-! ## Claim C6: `append` inside a For-Each accumulates across iterations -/
theorem validateVariableType_arr_ok (base : Registry) (t : String) (l : List Value)
    (hvt : aget? base.variableTypes t = none ∨
      aget? base.variableTypes t = some none ∨
      aget? base.variableTypes t = some (some VarType.array)) :
    base.validateVariableType t (.arr l) = .ok () := by
  unfold Registry.validateVariableType
  rcases hvt with h | h | h <;> rw [h]

theorem setVariable_arr_ok (base : Registry) (t : String) (l : List Value)
    (hvt : aget? base.variableTypes t = none ∨
      aget? base.variableTypes t = some none ∨
      aget? base.variableTypes t = some (some VarType.array)) :
    base.setVariable t (.arr l) =
      .ok { base with vars := aset base.vars t (.arr l) } := by
  unfold Registry.setVariable
  rw [validateVariableType_arr_ok base t l hvt]

/-- The loop invariant behind C6: running the single-`append` body over any
item list grows the target variable — held in the *base* registry, so the
writes are globally visible — by exactly one element per item. -/
theorem c6_append_loop (fuel : Nat) (uid target ek valueStr : String)
    (hk1 : target ≠ ek) (hk2 : target ≠ ek ++ "_index") :
    ∀ (items : List Value) (i : Nat) (base : Registry) (init : List Value),
      aget? base.vars target = some (.arr init) →
      (aget? base.variableTypes target = none ∨
       aget? base.variableTypes target = some none ∨
       aget? base.variableTypes target = some (some VarType.array)) →
      ∃ final : List Value,
        aget? (forEachIterate (execNode (fuel + 1)) ek
            [.update uid { variable_id := target, type := .append } valueStr]
            items i ⟨base, []⟩).2.base.vars target = some (.arr final) ∧
        final.length = init.length + items.length := by
  intro items
  induction items with
  | nil =>
    intro i base init hinit _
    exact ⟨init, hinit, by simp [forEachIterate]⟩
  | cons item rest ih =>
    intro i base init hinit hvt
    have hcur : viewGetVariable
        ⟨base, [{ eachKey := ek, currentItem := item, index := i }]⟩ target =
          .arr init := by
      simp only [viewGetVariable, scopesGetVariable]
      rw [if_neg hk1, if_neg hk2]
      simp only [Registry.getVariable, hinit, Option.getD]
    have hexec : ∃ x out,
        execNode (fuel + 1)
          (.update uid { variable_id := target, type := .append } valueStr)
          ⟨base, [{ eachKey := ek, currentItem := item, index := i }]⟩ =
        (.ok out,
         ⟨{ base with vars := aset base.vars target (.arr (init ++ [x])) },
          [{ eachKey := ek, currentItem := item, index := i }]⟩) := by
      simp only [execNode]
      rw [hcur]
      simp only [performUpdateOperation, Option.getD, viewSetVariable]
      rw [setVariable_arr_ok base target _ hvt]
      exact ⟨_, _, rfl⟩
    obtain ⟨x, out, hexec⟩ := hexec
    simp only [forEachIterate]
    have hrun : runEachNodes (execNode (fuel + 1))
        [.update uid { variable_id := target, type := .append } valueStr]
        ⟨base, [{ eachKey := ek, currentItem := item, index := i }]⟩ =
        ([iterEntry (.update uid { variable_id := target, type := .append } valueStr)
            { success := true, output := some out }],
         ⟨Registry.setNodeOutput
            { base with vars := aset base.vars target (.arr (init ++ [x])) } uid out,
          [{ eachKey := ek, currentItem := item, index := i,
             localOuts := aset [] uid out }]⟩) := by
      simp only [runEachNodes, execWithContext, hexec, viewSetNodeOutput]
      rfl
    rw [hrun]
    obtain ⟨final, hf, hlen⟩ := ih (i + 1)
      (Registry.setNodeOutput
        { base with vars := aset base.vars target (.arr (init ++ [x])) } uid out)
      (init ++ [x])
      (aget?_aset_self base.vars target (.arr (init ++ [x])))
      hvt
    refine ⟨final, hf, ?_⟩
    simp only [List.length_append, List.length_cons, List.length_nil] at hlen ⊢
    omega

/-- **C6** — a For-Each over `items` whose body is a single Update-Variable
node of operation `append` targeting a variable whose value is an array of
length `L` before the loop: the loop completes successfully and afterwards
the target variable's value — read from the base registry, since scoped
variable writes delegate to it and are globally visible — is an array of
length `L + N`, one element appended per iteration. -/
theorem C6_foreach_append_grows_by_N (fuel : Nat)
    (fid uid target ek itemsExpr valueStr : String)
    (base : Registry) (items init : List Value)
    (hitems : resolveValueExpression ⟨base, []⟩ itemsExpr = .arr items)
    (hinit : aget? base.vars target = some (.arr init))
    (hvt : aget? base.variableTypes target = none ∨
       aget? base.variableTypes target = some none ∨
       aget? base.variableTypes target = some (some VarType.array))
    (hk0 : ek ≠ "") (hk1 : target ≠ ek) (hk2 : target ≠ ek ++ "_index") :
    ∃ final : List Value,
      aget? (execNode (fuel + 2)
          (.forEach fid (some ek) itemsExpr
            [.update uid { variable_id := target, type := .append } valueStr])
          ⟨base, []⟩).2.base.vars target = some (.arr final) ∧
      final.length = init.length + items.length := by
  simp only [execNode, hitems]
  rw [if_neg hk0]
  obtain ⟨final, hf, hlen⟩ := c6_append_loop fuel uid target ek valueStr hk1 hk2
    items 0 base init hinit hvt
  exact ⟨final, hf, hlen⟩

/-- Witness for C6: appending `\x7b\x7bi\x7d\x7d` to `acc` (initially
`[0]`) over `items = [10, 20]` leaves `acc` with length `3 = 1 + 2`. -/
theorem C6_witness :
    ∃ final : List Value,
      aget? (execNode 2
          (.forEach "F" (some "i") "\x7b\x7bitems\x7d\x7d"
            [.update "U" { variable_id := "acc", type := .append } "\x7b\x7bi\x7d\x7d"])
          ⟨{ vars := [("items", .arr [.num (some 10), .num (some 20)]),
                      ("acc", .arr [.num (some 0)])] }, []⟩).2.base.vars "acc" =
        some (.arr final) ∧
      final.length = 1 + 2 := by
  have h := C6_foreach_append_grows_by_N 0 "F" "U" "acc" "i" "\x7b\x7bitems\x7d\x7d"
    "\x7b\x7bi\x7d\x7d"
    { vars := [("items", .arr [.num (some 10), .num (some 20)]),
               ("acc", .arr [.num (some 0)])] }
    [.num (some 10), .num (some 20)] [.num (some 0)]
    rfl rfl (Or.inl rfl) (by decide) (by decide) (by decide)
  simpa using h

/-! ## Claim C10: For-Each robustness to failing body nodes -/
theorem runEachNodes_length
    (exec : NodeDef → View → (Except String Value) × View) :
    ∀ (ns : List NodeDef) (view : View),
      (runEachNodes exec ns view).1.length = ns.length := by
  intro ns
  induction ns with
  | nil => intro view; rfl
  | cons n rest ih =>
    intro view
    simp only [runEachNodes]
    simp [ih]

theorem forEachIterate_length
    (exec : NodeDef → View → (Except String Value) × View)
    (ek : String) (body : List NodeDef) :
    ∀ (items : List Value) (i : Nat) (view : View),
      (forEachIterate exec ek body items i view).1.length = items.length := by
  intro items
  induction items with
  | nil => intro i view; rfl
  | cons item rest ih =>
    intro i view
    simp only [forEachIterate]
    simp [ih]

theorem forEachIterate_entries
    (exec : NodeDef → View → (Except String Value) × View)
    (ek : String) (body : List NodeDef) :
    ∀ (items : List Value) (i : Nat) (view : View),
      ∀ entry ∈ (forEachIterate exec ek body items i view).1,
        ∃ (item : Value) (idx : Nat) (rs : List Value),
          entry = .obj [("item", item), ("index", .num (some idx)),
                        ("results", .arr rs)] ∧
          rs.length = body.length := by
  intro items
  induction items with
  | nil => intro i view entry h; cases h
  | cons item rest ih =>
    intro i view entry h
    simp only [forEachIterate, List.mem_cons] at h
    rcases h with h | h
    · exact ⟨item, i, _, h, runEachNodes_length exec body _⟩
    · exact ih (i + 1) _ entry h

/-- **C10** — the For-Each executor is robust to failing body nodes.
(1) Whenever the loop input resolves to an array of `N` items, the node
returns success with `total_items = processed_items = N` — no child
failure aborts an iteration, the loop, or the flow — and every one of the
`N` iteration entries carries a result for *every* body node (the body
keeps running past a failure).  (2) Within an iteration, a child whose
execution raises an error is recorded with `success = false`, a `null`
result and the error message; no output of it is stored anywhere — the
loop continues on exactly the view the failing child returned (only a
*successful* child's output goes through the scoped `setNodeOutput`) —
and the remaining body nodes still execute. -/
theorem C10_foreach_error_robustness
    (fuel : Nat) (fid ek itemsExpr : String) (body : List NodeDef)
    (view : View) (items : List Value)
    (hitems : resolveValueExpression view itemsExpr = .arr items) :
    (∃ (results : List Value) (view' : View),
      execNode (fuel + 1) (.forEach fid (some ek) itemsExpr body) view =
        (.ok (.obj [("total_items", .num (some items.length)),
                    ("processed_items", .num (some items.length)),
                    ("results", .arr results)]), view') ∧
      results.length = items.length ∧
      ∀ entry ∈ results, ∃ (item : Value) (idx : Nat) (rs : List Value),
        entry = .obj [("item", item), ("index", .num (some idx)),
                      ("results", .arr rs)] ∧
        rs.length = body.length) ∧
    (∀ (exec : NodeDef → View → (Except String Value) × View)
       (n : NodeDef) (rest : List NodeDef) (v v₁ : View) (e : String),
      exec n v = (.error e, v₁) →
      runEachNodes exec (n :: rest) v =
        (.obj [("nodeId", .str n.id), ("nodeType", .str n.kindTag),
               ("result", .null), ("success", .bool false),
               ("error", .str e)] :: (runEachNodes exec rest v₁).1,
         (runEachNodes exec rest v₁).2)) := by
  constructor
  · rw [show execNode (fuel + 1) (.forEach fid (some ek) itemsExpr body) view =
        (match resolveValueExpression view itemsExpr with
         | .arr itemsList =>
           (.ok (.obj [("total_items", .num (some itemsList.length)),
                       ("processed_items", .num (some (forEachIterate (execNode fuel)
                          (if ek = "" then "current" else ek) body itemsList 0
                          view).1.length)),
                       ("results", .arr (forEachIterate (execNode fuel)
                          (if ek = "" then "current" else ek) body itemsList 0
                          view).1)]),
            (forEachIterate (execNode fuel)
              (if ek = "" then "current" else ek) body itemsList 0 view).2)
         | v => (.error ("ForEach node '" ++ fid ++
             "' input must be an array, but got " ++ jsTypeof v), view))
      from rfl, hitems]
    refine ⟨(forEachIterate (execNode fuel)
        (if ek = "" then "current" else ek) body items 0 view).1,
      (forEachIterate (execNode fuel)
        (if ek = "" then "current" else ek) body items 0 view).2, ?_,
      forEachIterate_length (execNode fuel)
        (if ek = "" then "current" else ek) body items 0 view,
      forEachIterate_entries (execNode fuel)
        (if ek = "" then "current" else ek) body items 0 view⟩
    show (Except.ok (Value.obj
        [("total_items", Value.num (some items.length)),
         ("processed_items", Value.num (some (forEachIterate (execNode fuel)
            (if ek = "" then "current" else ek) body items 0 view).1.length)),
         ("results", Value.arr (forEachIterate (execNode fuel)
            (if ek = "" then "current" else ek) body items 0 view).1)]),
       (forEachIterate (execNode fuel)
         (if ek = "" then "current" else ek) body items 0 view).2) = _
    rw [forEachIterate_length (execNode fuel)
      (if ek = "" then "current" else ek) body items 0 view]
  · intro exec n rest v v₁ e hfail
    simp only [runEachNodes, execWithContext, hfail]
    rfl

/-- Witness for C10: a body whose single node always fails (`append` to a
non-array) still processes both items, and `runEachNodes` records the
failure with `success = false` and a `null` result while leaving the view
untouched. -/
theorem C10_witness :
    (∃ (results : List Value) (view' : View),
      execNode 2 (.forEach "F" (some "i") "\x7b\x7bitems\x7d\x7d"
          [.update "Bad" { variable_id := "t", type := .append } "x"])
        ⟨{ vars := [("items", .arr [.num (some 1), .num (some 2)]),
                    ("t", .num (some 0))] }, []⟩ =
        (.ok (.obj [("total_items", .num (some 2)),
                    ("processed_items", .num (some 2)),
                    ("results", .arr results)]), view') ∧
      results.length = 2 ∧
      ∀ entry ∈ results, ∃ (item : Value) (idx : Nat) (rs : List Value),
        entry = .obj [("item", item), ("index", .num (some idx)),
                      ("results", .arr rs)] ∧ rs.length = 1) ∧
    runEachNodes (execNode 1)
        [.update "Bad" { variable_id := "t", type := .append } "x"]
        ⟨{ vars := [("t", .num (some 0))] }, []⟩ =
      ([.obj [("nodeId", .str "Bad"), ("nodeType", .str "UPDATE_VARIABLE"),
              ("result", .null), ("success", .bool false),
              ("error", .str "Cannot append to variable as it is not an array.")]],
       ⟨{ vars := [("t", .num (some 0))] }, []⟩) := by
  have h := C10_foreach_error_robustness 1 "F" "i" "\x7b\x7bitems\x7d\x7d"
    [.update "Bad" { variable_id := "t", type := .append } "x"]
    ⟨{ vars := [("items", .arr [.num (some 1), .num (some 2)]),
                ("t", .num (some 0))] }, []⟩
    [.num (some 1), .num (some 2)] rfl
  refine ⟨h.1, ?_⟩
  exact (h.2 (execNode 1)
    (.update "Bad" { variable_id := "t", type := .append } "x") []
    ⟨{ vars := [("t", .num (some 0))] }, []⟩
    ⟨{ vars := [("t", .num (some 0))] }, []⟩
    "Cannot append to variable as it is not an array." rfl).trans (by rfl)

end OpenFlow

